import Mathlib

/-!
Shallow embedding of the xterm-react adapter (`src/src/Xterm.tsx`).

The component `Xterm` declares, in order:
  1. a main effect with dependency array `[options]` that constructs the
     `Terminal`, loads addons, attaches the custom key event handler, stores
     the instance in `xtermRef`, opens it into the container `div`, and whose
     cleanup calls `onDispose` (if a function), disposes the terminal inside
     `try/catch { console.log(e) }`, and clears `xtermRef`;
  2. twelve `useBind` effects, one per event name, each with dependency array
     `[handler]`, whose body returns early unless `xtermRef.current` is set
     and the handler is a function, else attaches the handler obtaining an
     `EventBinding` whose cleanup disposes that binding;
  3. an init effect with dependency array `[xtermRef.current]` (the ref value
     read at render time) whose body calls `onInit(xtermRef.current)` when the
     ref is non-null and `onInit` is a function.

React semantics embedded here: on mount every effect runs; on an update an
effect re-runs iff its dependency array (compared with `Object.is`, here
equality on `Option Nat` identities) changed against the values recorded at
the previous render; during a commit, first the cleanups of all re-running
effects execute in declaration order, then the bodies execute in declaration
order; on unmount all stored cleanups execute in declaration order.  Function
identities (handlers, custom key handler) and options identities are modelled
as `Nat`; `none` models an absent or non-callable prop.  `divRef` is attached
by React before any effect runs, modelled by `divAttached := true`.  Whether
`Terminal.dispose` throws is an environment parameter `env : Nat → Bool`
indexed by terminal identity; the `catch` branch logs the error.  Every
observable call into the wrapped terminal library is recorded as an `XAct`
in a trace.
-/

/-- The twelve supported event names of the adapter, in declaration order. -/
inductive EvName where
  | onBell
  | onBinary
  | onCursorMove
  | onData
  | onKey
  | onLineFeed
  | onRender
  | onResize
  | onScroll
  | onSelectionChange
  | onTitleChange
  | onWriteParsed
  deriving DecidableEq, Repr, Fintype

/-- The order in which the twelve `useBind` hooks are called in `Xterm`. -/
def evOrder : List EvName :=
  [EvName.onBell, EvName.onBinary, EvName.onCursorMove, EvName.onData,
   EvName.onKey, EvName.onLineFeed, EvName.onRender, EvName.onResize,
   EvName.onScroll, EvName.onSelectionChange, EvName.onTitleChange,
   EvName.onWriteParsed]

/-- The props of one render of `Xterm`.  Identities of JS values (options
object, handler functions, custom key handler) are modelled as `Nat`; `none`
models an absent (or, for handlers, non-callable) prop.  `onInit`/`onDispose`
record whether that prop is a callable function. -/
structure Props where
  options : Option Nat
  addons : List Nat
  handlers : EvName → Option Nat
  customKeyEventHandler : Option Nat
  onInit : Bool
  onDispose : Bool

/-- Observable calls performed by the adapter, recorded in a trace.
`disposeTerm t thrw` records the `xterm.dispose()` call and whether it threw;
`logError t` records the `console.log(e)` in the catch branch. -/
inductive XAct where
  | createTerm (t : Nat) (opts : Option Nat)
  | loadAddon (t : Nat) (a : Nat)
  | attachCustomKE (t : Nat) (h : Nat)
  | openTerm (t : Nat)
  | onInitCall (t : Nat)
  | onDisposeCall (t : Nat)
  | disposeTerm (t : Nat) (thrw : Bool)
  | logError (t : Nat)
  | bindEvent (b : Nat) (t : Nat) (e : EvName) (h : Nat)
  | disposeBinding (b : Nat)
  deriving DecidableEq, Repr

/-- The state of one mounted `Xterm` adapter between commits: fresh-identity
counters for terminals and bindings, the `xtermRef` cell, the recorded
dependency arrays of the fifteen effects, the stored cleanup closures (the
captured terminal identity together with the captured `onDispose` flag for the
main effect; the captured binding identity for each `useBind` effect), and the
trace of calls made so far. -/
structure AdapterState where
  divAttached : Bool
  nextTerm : Nat
  nextBind : Nat
  xtermRef : Option Nat
  mainDeps : Option (Option Nat)
  mainCu : Option (Nat × Bool)
  bindDeps : EvName → Option (Option Nat)
  bindCu : EvName → Option Nat
  initDeps : Option (Option Nat)
  trace : List XAct

/-- The state before the first commit of a mounted adapter.  React attaches
the rendered `div` to `divRef` before any effect runs. -/
def initState : AdapterState :=
  { divAttached := true
    nextTerm := 0
    nextBind := 0
    xtermRef := none
    mainDeps := none
    mainCu := none
    bindDeps := fun _ => none
    bindCu := fun _ => none
    initDeps := none
    trace := [] }

/-- Actions of the main effect cleanup for captured instance `t` and captured
`onDispose` flag `d`: `onDispose(xterm)` if supplied, then `xterm.dispose()`
inside `try/catch`, logging when it throws (`env t`). -/
def mainCleanupActs (env : Nat → Bool) (t : Nat) (d : Bool) : List XAct :=
  (if d then [XAct.onDisposeCall t] else []) ++
    XAct.disposeTerm t (env t) :: (if env t then [XAct.logError t] else [])

/-- Run the stored main-effect cleanup, if any: `onDispose` before `dispose`,
errors from `dispose` caught and logged, then `xtermRef.current = null`. -/
def xtermMainCleanup (env : Nat → Bool) (s : AdapterState) : AdapterState :=
  match s.mainCu with
  | none => s
  | some (t, d) =>
      { s with trace := s.trace ++ mainCleanupActs env t d
               xtermRef := none
               mainCu := none }

/-- Run the cleanup of the `useBind` effect for event `e`, exactly when its
dependency `[handler]` changed: dispose the stored `EventBinding`, if one was
created by the previous body run. -/
def useBindCleanup (s : AdapterState) (p : Props) (e : EvName) : AdapterState :=
  if s.bindDeps e = some (p.handlers e) then s
  else
    match s.bindCu e with
    | none => s
    | some b =>
        { s with trace := s.trace ++ [XAct.disposeBinding b]
                 bindCu := fun x => if x = e then none else s.bindCu x }

/-- Phase 1 for the twelve `useBind` effects, in declaration order. -/
def useBindCleanups (s : AdapterState) (p : Props) : AdapterState :=
  evOrder.foldl (fun t e => useBindCleanup t p e) s

/-- Actions of the main effect body constructing instance `t`:
`new Terminal(options)`, `loadAddon` for each addon in list order,
`attachCustomKeyEventHandler` if supplied, then `open(divRef.current)`. -/
def mainBodyActs (t : Nat) (p : Props) : List XAct :=
  XAct.createTerm t p.options ::
    (p.addons.map (XAct.loadAddon t) ++
      ((match p.customKeyEventHandler with
        | some h => [XAct.attachCustomKE t h]
        | none => []) ++ [XAct.openTerm t]))

/-- Run the main effect body: guard on `divRef.current`, construct the fresh
instance, set `xtermRef.current`, open, record the cleanup closure (capturing
the instance and the current `onDispose` flag) and the dependency `[options]`. -/
def xtermMainBody (s : AdapterState) (p : Props) : AdapterState :=
  if s.divAttached then
    { s with trace := s.trace ++ mainBodyActs s.nextTerm p
             xtermRef := some s.nextTerm
             mainCu := some (s.nextTerm, p.onDispose)
             mainDeps := some p.options
             nextTerm := s.nextTerm + 1 }
  else { s with mainDeps := some p.options, mainCu := none }

/-- Run the body of the `useBind` effect for event `e`, exactly when its
dependency `[handler]` changed: if `xtermRef.current` is set and the handler
is a function, attach it, obtaining a fresh `EventBinding` stored for the
cleanup; otherwise return early storing no cleanup. -/
def useBindBody (s : AdapterState) (p : Props) (e : EvName) : AdapterState :=
  if s.bindDeps e = some (p.handlers e) then s
  else
    match s.xtermRef, p.handlers e with
    | some t, some h =>
        { s with trace := s.trace ++ [XAct.bindEvent s.nextBind t e h]
                 bindDeps := fun x => if x = e then some (p.handlers e) else s.bindDeps x
                 bindCu := fun x => if x = e then some s.nextBind else s.bindCu x
                 nextBind := s.nextBind + 1 }
    | _, _ =>
        { s with bindDeps := fun x => if x = e then some (p.handlers e) else s.bindDeps x
                 bindCu := fun x => if x = e then none else s.bindCu x }

/-- Phase 2 for the twelve `useBind` effects, in declaration order. -/
def useBindBodies (s : AdapterState) (p : Props) : AdapterState :=
  evOrder.foldl (fun t e => useBindBody t p e) s

/-- Run the init effect, exactly when its dependency `[xtermRef.current]`,
read at render time (`initNow`), changed: call `onInit(xtermRef.current)` when
the ref is non-null and `onInit` is a function. -/
def xtermInitBody (s : AdapterState) (p : Props) (initNow : Option Nat) : AdapterState :=
  if s.initDeps = some initNow then s
  else
    match s.xtermRef, p.onInit with
    | some t, true =>
        { s with trace := s.trace ++ [XAct.onInitCall t]
                 initDeps := some initNow }
    | _, _ => { s with initDeps := some initNow }

/-- One React commit of `Xterm` with props `p`: dependency arrays are read at
render time (in particular the init effect's `[xtermRef.current]`), then the
cleanups of all re-running effects execute in declaration order, then the
bodies execute in declaration order. -/
def xtermCommit (env : Nat → Bool) (s : AdapterState) (p : Props) : AdapterState :=
  xtermInitBody
    (useBindBodies
      (if s.mainDeps = some p.options then useBindCleanups s p
       else xtermMainBody (useBindCleanups (xtermMainCleanup env s) p) p)
      p)
    p s.xtermRef

/-- Unmount cleanup of one `useBind` effect: dispose the stored binding. -/
def unmountBindCu (s : AdapterState) (e : EvName) : AdapterState :=
  match s.bindCu e with
  | none => s
  | some b =>
      { s with trace := s.trace ++ [XAct.disposeBinding b]
               bindCu := fun x => if x = e then none else s.bindCu x }

/-- Unmount of the adapter: all stored cleanups run in declaration order —
the main effect cleanup first, then the twelve `useBind` cleanups. -/
def xtermUnmount (env : Nat → Bool) (s : AdapterState) : AdapterState :=
  evOrder.foldl unmountBindCu (xtermMainCleanup env s)

/-- The state of a mounted adapter after the commits of the given successive
renders, starting from the initial mount. -/
def runMounted (env : Nat → Bool) (ps : List Props) : AdapterState :=
  ps.foldl (xtermCommit env) initState

/-- A full adapter lifecycle: the given renders, then unmount. -/
def runAdapter (env : Nat → Bool) (ps : List Props) : AdapterState :=
  xtermUnmount env (runMounted env ps)

/-- Environment in which `Terminal.dispose` never throws. -/
def envOk : Nat → Bool := fun _ => false

/-- Trace predicate: `true` on `disposeBinding` actions. -/
def isDisposeBindingA : XAct → Bool
  | XAct.disposeBinding _ => true
  | _ => false

/-- Trace predicate: `true` on `bindEvent` actions. -/
def isBindEventA : XAct → Bool
  | XAct.bindEvent _ _ _ _ => true
  | _ => false

/-- Trace predicate: `true` on `bindEvent` actions for event `e`. -/
def isBindEventFor (e : EvName) : XAct → Bool
  | XAct.bindEvent _ _ e' _ => e' = e
  | _ => false

/-- Trace predicate: `true` on `loadAddon` actions. -/
def isLoadA : XAct → Bool
  | XAct.loadAddon _ _ => true
  | _ => false

/-- Trace predicate: `true` on `createTerm` actions. -/
def isCreateA : XAct → Bool
  | XAct.createTerm _ _ => true
  | _ => false

/-- Trace predicate: `true` on `disposeTerm` actions. -/
def isDisposeTermA : XAct → Bool
  | XAct.disposeTerm _ _ => true
  | _ => false

/-- Trace predicate: `true` on `onInitCall` actions. -/
def isInitCallA : XAct → Bool
  | XAct.onInitCall _ => true
  | _ => false

/-- Trace predicate: `true` on `bindEvent`, `disposeBinding` and `onInitCall`
actions (everything emitted after the construction block in one commit). -/
def isBindOrInitA : XAct → Bool
  | XAct.bindEvent _ _ _ _ => true
  | XAct.disposeBinding _ => true
  | XAct.onInitCall _ => true
  | _ => false

/-- Trace predicate: `true` on `onDisposeCall` actions. -/
def isOnDisposeA : XAct → Bool
  | XAct.onDisposeCall _ => true
  | _ => false

/-- Main-effect cleanup actions, as a function of the stored closure. -/
def mainCuActs (env : Nat → Bool) : Option (Nat × Bool) → List XAct
  | none => []
  | some (t, d) => mainCleanupActs env t d

/-- Environment in which `Terminal.dispose` always throws. -/
def envBad : Nat → Bool := fun _ => true

/-- Example props: an `onData` handler (function identity 5) and options
identity 0; nothing else supplied. -/
def pA : Props :=
  { options := some 0
    addons := []
    handlers := fun e => if e = EvName.onData then some 5 else none
    customKeyEventHandler := none
    onInit := false
    onDispose := false }

/-- Example props: as `pA` but with a new options identity. -/
def pA2 : Props := { pA with options := some 1 }

/-- Example props: as `pA` but with a new `onData` handler identity. -/
def pA5 : Props :=
  { pA with handlers := fun e => if e = EvName.onData then some 7 else none }

/-- Example props: callable `onInit` and `onDispose`, no handlers, options
identity 0. -/
def qB : Props :=
  { options := some 0
    addons := []
    handlers := fun _ => none
    customKeyEventHandler := none
    onInit := true
    onDispose := true }

/-- Example props: as `qB` but with a new options identity. -/
def qB2 : Props := { qB with options := some 1 }

/-- Example props: as `qB` but with a custom key event handler supplied. -/
def pK : Props := { qB with customKeyEventHandler := some 3 }

/-- Example props: two addons (identities 10 and 20), nothing else. -/
def pAdd : Props :=
  { options := some 0
    addons := [10, 20]
    handlers := fun _ => none
    customKeyEventHandler := none
    onInit := false
    onDispose := false }

/-- Every `EventBinding` ever created is accounted for: it has either been
disposed, or it is still stored in some `useBind` effect's cleanup slot. -/
def BindingsAccounted (s : AdapterState) : Prop :=
  ∀ b, (∃ t e hh, XAct.bindEvent b t e hh ∈ s.trace) →
    XAct.disposeBinding b ∈ s.trace ∨ ∃ e2, s.bindCu e2 = some b

/-- Between phase 1 and phase 2 of a commit with props `p`: every `useBind`
effect whose handler dependency changed has an empty cleanup slot. -/
def CleanupsCleared (p : Props) (s : AdapterState) : Prop :=
  ∀ e, s.bindDeps e ≠ some (p.handlers e) → s.bindCu e = none

/-- One step of the scanner checking that `onDisposeCall` and `disposeTerm`
actions occur only as adjacent pairs `[onDisposeCall t, disposeTerm t _]`:
state `none` means "not inside a pair", state `some t` means "an
`onDisposeCall t` was just seen and the matching dispose must follow";
result `none` rejects the trace. -/
def pstep : Option Nat → XAct → Option (Option Nat)
  | none, XAct.onDisposeCall t => some (some t)
  | none, XAct.disposeTerm _ _ => none
  | none, _ => some none
  | some t, XAct.disposeTerm t2 _ => if t = t2 then some none else none
  | some _, _ => none

/-- Run the pairing scanner over a trace from a given state. -/
def pairedFrom : Option Nat → List XAct → Bool
  | st, [] => match st with | none => true | some _ => false
  | st, a :: rest =>
      match pstep st a with
      | none => false
      | some st2 => pairedFrom st2 rest

/-- A trace in which every `disposeTerm t` is immediately preceded by
`onDisposeCall t` and every `onDisposeCall t` is immediately followed by
`disposeTerm t` — i.e. `onDispose` fires exactly once per disposal, with the
instance being disposed, strictly before its dispose. -/
def pairedOnDispose (l : List XAct) : Bool := pairedFrom none l

/-! ## Generic lemmas about folds over the event list -/

/-- A quantity preserved by every step is preserved by the fold. -/
lemma foldl_pres {α : Type} (f : AdapterState → EvName → AdapterState) (g : AdapterState → α)
    (hf : ∀ s e, g (f s e) = g s) :
    ∀ (l : List EvName) (s : AdapterState), g (l.foldl f s) = g s := by
  intro l
  induction l with
  | nil => intro s; rfl
  | cons a l ih => intro s; rw [List.foldl_cons, ih, hf]

/-- A state property preserved by every step is preserved by the fold. -/
lemma foldl_inv (Q : AdapterState → Prop) (f : AdapterState → EvName → AdapterState)
    (hf : ∀ s e, Q s → Q (f s e)) :
    ∀ (l : List EvName) (s : AdapterState), Q s → Q (l.foldl f s) := by
  intro l
  induction l with
  | nil => intro s h; exact h
  | cons a l ih => intro s h; rw [List.foldl_cons]; exact ih _ (hf s a h)

/-- Under a step-preserved state property, a quantity preserved by every step
is preserved by the fold. -/
lemma foldl_pres_inv {α : Type} (Q : AdapterState → Prop) (g : AdapterState → α)
    (f : AdapterState → EvName → AdapterState)
    (hQ : ∀ s e, Q s → Q (f s e))
    (hg : ∀ s e, Q s → g (f s e) = g s) :
    ∀ (l : List EvName) (s : AdapterState), Q s → g (l.foldl f s) = g s := by
  intro l
  induction l with
  | nil => intro s _; rfl
  | cons a l ih => intro s h; rw [List.foldl_cons, ih _ (hQ s a h), hg s a h]

/-- If every step appends only actions satisfying `P` to the trace, so does
the fold. -/
lemma foldl_trace (P : XAct → Prop) (f : AdapterState → EvName → AdapterState)
    (hf : ∀ s e, ∃ A, (f s e).trace = s.trace ++ A ∧ ∀ a ∈ A, P a) :
    ∀ (l : List EvName) (s : AdapterState),
      ∃ A, (l.foldl f s).trace = s.trace ++ A ∧ ∀ a ∈ A, P a := by
  intro l
  induction l with
  | nil => intro s; exact ⟨[], by simp⟩
  | cons a l ih =>
      intro s
      obtain ⟨A1, h1, hP1⟩ := hf s a
      obtain ⟨A2, h2, hP2⟩ := ih (f s a)
      refine ⟨A1 ++ A2, ?_, ?_⟩
      · rw [List.foldl_cons, h2, h1, List.append_assoc]
      · intro x hx
        rcases List.mem_append.mp hx with h | h
        · exact hP1 x h
        · exact hP2 x h

/-- Conditional version of `foldl_trace`, for step guarantees that hold only
on states satisfying a step-preserved property `Q`. -/
lemma foldl_trace_inv (Q : AdapterState → Prop) (P : XAct → Prop)
    (f : AdapterState → EvName → AdapterState)
    (hQ : ∀ s e, Q s → Q (f s e))
    (hf : ∀ s e, Q s → ∃ A, (f s e).trace = s.trace ++ A ∧ ∀ a ∈ A, P a) :
    ∀ (l : List EvName) (s : AdapterState), Q s →
      ∃ A, (l.foldl f s).trace = s.trace ++ A ∧ ∀ a ∈ A, P a := by
  intro l
  induction l with
  | nil => intro s _; exact ⟨[], by simp⟩
  | cons a l ih =>
      intro s h
      obtain ⟨A1, h1, hP1⟩ := hf s a h
      obtain ⟨A2, h2, hP2⟩ := ih (f s a) (hQ s a h)
      refine ⟨A1 ++ A2, ?_, ?_⟩
      · rw [List.foldl_cons, h2, h1, List.append_assoc]
      · intro x hx
        rcases List.mem_append.mp hx with hm | hm
        · exact hP1 x hm
        · exact hP2 x hm

/-- A per-event property established by processing that event, and stable
under processing any event, holds after the fold for every processed event. -/
lemma foldl_estab (R : AdapterState → EvName → Prop)
    (f : AdapterState → EvName → AdapterState)
    (h1 : ∀ s e, R (f s e) e)
    (h2 : ∀ s e e', R s e → R (f s e') e) :
    ∀ (l : List EvName) (s : AdapterState) (e : EvName), e ∈ l →
      R (l.foldl f s) e := by
  intro l
  induction l with
  | nil => intro s e h; cases h
  | cons a l ih =>
      intro s e he
      rw [List.foldl_cons]
      rcases List.mem_cons.mp he with rfl | hm
      · by_cases hl : e ∈ l
        · exact ih _ e hl
        · have : ∀ (l' : List EvName) (s' : AdapterState), e ∉ l' → R s' e →
              R (l'.foldl f s') e := by
            intro l'
            induction l' with
            | nil => intro s' _ h; exact h
            | cons b l' ih' =>
                intro s' hnot h
                rw [List.foldl_cons]
                exact ih' _ (fun hb => hnot (List.mem_cons_of_mem b hb))
                  (h2 s' e b h)
          exact this l _ hl (h1 s e)
      · exact ih _ e hm

/-- Every event name occurs in `evOrder`. -/
lemma mem_evOrder (e : EvName) : e ∈ evOrder := by
  cases e <;> simp [evOrder]

/-! ## Frame and trace lemmas for the individual effect phases -/

@[simp] lemma mc_trace (env : Nat → Bool) (s : AdapterState) :
    (xtermMainCleanup env s).trace = s.trace ++ mainCuActs env s.mainCu := by
  unfold xtermMainCleanup mainCuActs
  split <;> simp_all

@[simp] lemma mc_bindDeps (env : Nat → Bool) (s : AdapterState) :
    (xtermMainCleanup env s).bindDeps = s.bindDeps := by
  unfold xtermMainCleanup; split <;> rfl

@[simp] lemma mc_bindCu (env : Nat → Bool) (s : AdapterState) :
    (xtermMainCleanup env s).bindCu = s.bindCu := by
  unfold xtermMainCleanup; split <;> rfl

@[simp] lemma mc_nextTerm (env : Nat → Bool) (s : AdapterState) :
    (xtermMainCleanup env s).nextTerm = s.nextTerm := by
  unfold xtermMainCleanup; split <;> rfl

@[simp] lemma mc_nextBind (env : Nat → Bool) (s : AdapterState) :
    (xtermMainCleanup env s).nextBind = s.nextBind := by
  unfold xtermMainCleanup; split <;> rfl

@[simp] lemma mc_divAttached (env : Nat → Bool) (s : AdapterState) :
    (xtermMainCleanup env s).divAttached = s.divAttached := by
  unfold xtermMainCleanup; split <;> rfl

@[simp] lemma mc_mainDeps (env : Nat → Bool) (s : AdapterState) :
    (xtermMainCleanup env s).mainDeps = s.mainDeps := by
  unfold xtermMainCleanup; split <;> rfl

@[simp] lemma mc_initDeps (env : Nat → Bool) (s : AdapterState) :
    (xtermMainCleanup env s).initDeps = s.initDeps := by
  unfold xtermMainCleanup; split <;> rfl

lemma ubc_id (s : AdapterState) (p : Props) (e : EvName)
    (h : s.bindDeps e = some (p.handlers e)) : useBindCleanup s p e = s := by
  unfold useBindCleanup; rw [if_pos h]

@[simp] lemma ubc_bindDeps (s : AdapterState) (p : Props) (e : EvName) :
    (useBindCleanup s p e).bindDeps = s.bindDeps := by
  unfold useBindCleanup; split
  · rfl
  · split <;> rfl

@[simp] lemma ubc_xtermRef (s : AdapterState) (p : Props) (e : EvName) :
    (useBindCleanup s p e).xtermRef = s.xtermRef := by
  unfold useBindCleanup; split
  · rfl
  · split <;> rfl

@[simp] lemma ubc_mainDeps (s : AdapterState) (p : Props) (e : EvName) :
    (useBindCleanup s p e).mainDeps = s.mainDeps := by
  unfold useBindCleanup; split
  · rfl
  · split <;> rfl

@[simp] lemma ubc_mainCu (s : AdapterState) (p : Props) (e : EvName) :
    (useBindCleanup s p e).mainCu = s.mainCu := by
  unfold useBindCleanup; split
  · rfl
  · split <;> rfl

@[simp] lemma ubc_nextTerm (s : AdapterState) (p : Props) (e : EvName) :
    (useBindCleanup s p e).nextTerm = s.nextTerm := by
  unfold useBindCleanup; split
  · rfl
  · split <;> rfl

@[simp] lemma ubc_nextBind (s : AdapterState) (p : Props) (e : EvName) :
    (useBindCleanup s p e).nextBind = s.nextBind := by
  unfold useBindCleanup; split
  · rfl
  · split <;> rfl

@[simp] lemma ubc_divAttached (s : AdapterState) (p : Props) (e : EvName) :
    (useBindCleanup s p e).divAttached = s.divAttached := by
  unfold useBindCleanup; split
  · rfl
  · split <;> rfl

@[simp] lemma ubc_initDeps (s : AdapterState) (p : Props) (e : EvName) :
    (useBindCleanup s p e).initDeps = s.initDeps := by
  unfold useBindCleanup; split
  · rfl
  · split <;> rfl

lemma ubc_trace (s : AdapterState) (p : Props) (e : EvName) :
    ∃ A, (useBindCleanup s p e).trace = s.trace ++ A ∧
      ∀ a ∈ A, isDisposeBindingA a = true := by
  unfold useBindCleanup
  split
  · exact ⟨[], by simp⟩
  · split
    · exact ⟨[], by simp⟩
    · rename_i b heq
      exact ⟨[XAct.disposeBinding b], by simp [isDisposeBindingA]⟩

lemma ubc_bindCu_other (s : AdapterState) (p : Props) (e e' : EvName) (h : e' ≠ e) :
    (useBindCleanup s p e).bindCu e' = s.bindCu e' := by
  unfold useBindCleanup
  split
  · rfl
  · split
    · rfl
    · simp [h]

lemma ubc_bindCu_none (s : AdapterState) (p : Props) (e e' : EvName)
    (h : s.bindCu e' = none) : (useBindCleanup s p e).bindCu e' = none := by
  unfold useBindCleanup
  split
  · exact h
  · split
    · exact h
    · by_cases he : e' = e <;> simp [he, h]

lemma ubb_id (s : AdapterState) (p : Props) (e : EvName)
    (h : s.bindDeps e = some (p.handlers e)) : useBindBody s p e = s := by
  unfold useBindBody; rw [if_pos h]

@[simp] lemma ubb_xtermRef (s : AdapterState) (p : Props) (e : EvName) :
    (useBindBody s p e).xtermRef = s.xtermRef := by
  unfold useBindBody; split
  · rfl
  · split <;> rfl

@[simp] lemma ubb_mainDeps (s : AdapterState) (p : Props) (e : EvName) :
    (useBindBody s p e).mainDeps = s.mainDeps := by
  unfold useBindBody; split
  · rfl
  · split <;> rfl

@[simp] lemma ubb_mainCu (s : AdapterState) (p : Props) (e : EvName) :
    (useBindBody s p e).mainCu = s.mainCu := by
  unfold useBindBody; split
  · rfl
  · split <;> rfl

@[simp] lemma ubb_nextTerm (s : AdapterState) (p : Props) (e : EvName) :
    (useBindBody s p e).nextTerm = s.nextTerm := by
  unfold useBindBody; split
  · rfl
  · split <;> rfl

@[simp] lemma ubb_divAttached (s : AdapterState) (p : Props) (e : EvName) :
    (useBindBody s p e).divAttached = s.divAttached := by
  unfold useBindBody; split
  · rfl
  · split <;> rfl

@[simp] lemma ubb_initDeps (s : AdapterState) (p : Props) (e : EvName) :
    (useBindBody s p e).initDeps = s.initDeps := by
  unfold useBindBody; split
  · rfl
  · split <;> rfl

lemma ubb_bindDeps_other (s : AdapterState) (p : Props) (e e' : EvName) (h : e' ≠ e) :
    (useBindBody s p e).bindDeps e' = s.bindDeps e' := by
  unfold useBindBody
  split
  · rfl
  · split <;> simp [h]

lemma ubb_bindCu_other (s : AdapterState) (p : Props) (e e' : EvName) (h : e' ≠ e) :
    (useBindBody s p e).bindCu e' = s.bindCu e' := by
  unfold useBindBody
  split
  · rfl
  · split <;> simp [h]

lemma ubb_trace (s : AdapterState) (p : Props) (e : EvName) :
    ∃ A, (useBindBody s p e).trace = s.trace ++ A ∧
      ∀ a ∈ A, ∃ b t h, a = XAct.bindEvent b t e h ∧ p.handlers e = some h ∧
        s.xtermRef = some t := by
  unfold useBindBody
  split
  · exact ⟨[], by simp⟩
  · split
    · rename_i t h heq1 heq2
      refine ⟨[XAct.bindEvent s.nextBind t e h], by simp, ?_⟩
      intro a ha
      rw [List.mem_singleton] at ha
      subst ha
      exact ⟨s.nextBind, t, h, rfl, heq2, heq1⟩
    · exact ⟨[], by simp⟩

@[simp] lemma mb_bindDeps (s : AdapterState) (p : Props) :
    (xtermMainBody s p).bindDeps = s.bindDeps := by
  unfold xtermMainBody; split <;> rfl

@[simp] lemma mb_bindCu (s : AdapterState) (p : Props) :
    (xtermMainBody s p).bindCu = s.bindCu := by
  unfold xtermMainBody; split <;> rfl

@[simp] lemma mb_nextBind (s : AdapterState) (p : Props) :
    (xtermMainBody s p).nextBind = s.nextBind := by
  unfold xtermMainBody; split <;> rfl

@[simp] lemma mb_initDeps (s : AdapterState) (p : Props) :
    (xtermMainBody s p).initDeps = s.initDeps := by
  unfold xtermMainBody; split <;> rfl

@[simp] lemma mb_divAttached (s : AdapterState) (p : Props) :
    (xtermMainBody s p).divAttached = s.divAttached := by
  unfold xtermMainBody; split <;> rfl

lemma mb_of_div (s : AdapterState) (p : Props) (h : s.divAttached = true) :
    xtermMainBody s p =
      { s with trace := s.trace ++ mainBodyActs s.nextTerm p
               xtermRef := some s.nextTerm
               mainCu := some (s.nextTerm, p.onDispose)
               mainDeps := some p.options
               nextTerm := s.nextTerm + 1 } := by
  unfold xtermMainBody; rw [if_pos h]

@[simp] lemma ib_bindDeps (s : AdapterState) (p : Props) (n : Option Nat) :
    (xtermInitBody s p n).bindDeps = s.bindDeps := by
  unfold xtermInitBody; split
  · rfl
  · split <;> rfl

@[simp] lemma ib_bindCu (s : AdapterState) (p : Props) (n : Option Nat) :
    (xtermInitBody s p n).bindCu = s.bindCu := by
  unfold xtermInitBody; split
  · rfl
  · split <;> rfl

@[simp] lemma ib_xtermRef (s : AdapterState) (p : Props) (n : Option Nat) :
    (xtermInitBody s p n).xtermRef = s.xtermRef := by
  unfold xtermInitBody; split
  · rfl
  · split <;> rfl

@[simp] lemma ib_mainDeps (s : AdapterState) (p : Props) (n : Option Nat) :
    (xtermInitBody s p n).mainDeps = s.mainDeps := by
  unfold xtermInitBody; split
  · rfl
  · split <;> rfl

@[simp] lemma ib_mainCu (s : AdapterState) (p : Props) (n : Option Nat) :
    (xtermInitBody s p n).mainCu = s.mainCu := by
  unfold xtermInitBody; split
  · rfl
  · split <;> rfl

@[simp] lemma ib_nextTerm (s : AdapterState) (p : Props) (n : Option Nat) :
    (xtermInitBody s p n).nextTerm = s.nextTerm := by
  unfold xtermInitBody; split
  · rfl
  · split <;> rfl

@[simp] lemma ib_nextBind (s : AdapterState) (p : Props) (n : Option Nat) :
    (xtermInitBody s p n).nextBind = s.nextBind := by
  unfold xtermInitBody; split
  · rfl
  · split <;> rfl

@[simp] lemma ib_divAttached (s : AdapterState) (p : Props) (n : Option Nat) :
    (xtermInitBody s p n).divAttached = s.divAttached := by
  unfold xtermInitBody; split
  · rfl
  · split <;> rfl

lemma ib_trace (s : AdapterState) (p : Props) (n : Option Nat) :
    ∃ A, (xtermInitBody s p n).trace = s.trace ++ A ∧
      ∀ a ∈ A, ∃ t, a = XAct.onInitCall t ∧ s.xtermRef = some t ∧ p.onInit = true := by
  unfold xtermInitBody
  split
  · exact ⟨[], by simp⟩
  · split
    · rename_i t heq1 heq2
      exact ⟨[XAct.onInitCall t], by simp, by simp [heq1, heq2]⟩
    · exact ⟨[], by simp⟩

lemma umb_trace (s : AdapterState) (e : EvName) :
    ∃ A, (unmountBindCu s e).trace = s.trace ++ A ∧
      ∀ a ∈ A, isDisposeBindingA a = true := by
  unfold unmountBindCu
  split
  · exact ⟨[], by simp⟩
  · rename_i b heq
    exact ⟨[XAct.disposeBinding b], by simp, by simp [isDisposeBindingA]⟩

@[simp] lemma umb_xtermRef (s : AdapterState) (e : EvName) :
    (unmountBindCu s e).xtermRef = s.xtermRef := by
  unfold unmountBindCu; split <;> rfl

@[simp] lemma umb_mainCu (s : AdapterState) (e : EvName) :
    (unmountBindCu s e).mainCu = s.mainCu := by
  unfold unmountBindCu; split <;> rfl

lemma umb_bindCu_self (s : AdapterState) (e : EvName) :
    (unmountBindCu s e).bindCu e = none := by
  unfold unmountBindCu
  split
  · assumption
  · simp

lemma umb_bindCu_none (s : AdapterState) (e e' : EvName) (h : s.bindCu e' = none) :
    (unmountBindCu s e).bindCu e' = none := by
  unfold unmountBindCu
  split
  · exact h
  · by_cases he : e' = e <;> simp [he, h]

/-! ## Lemmas about the folded phases -/

@[simp] lemma ubcs_bindDeps (s : AdapterState) (p : Props) :
    (useBindCleanups s p).bindDeps = s.bindDeps :=
  foldl_pres _ (fun s => s.bindDeps) (fun s e => ubc_bindDeps s p e) evOrder s

@[simp] lemma ubcs_xtermRef (s : AdapterState) (p : Props) :
    (useBindCleanups s p).xtermRef = s.xtermRef :=
  foldl_pres _ (fun s => s.xtermRef) (fun s e => ubc_xtermRef s p e) evOrder s

@[simp] lemma ubcs_mainDeps (s : AdapterState) (p : Props) :
    (useBindCleanups s p).mainDeps = s.mainDeps :=
  foldl_pres _ (fun s => s.mainDeps) (fun s e => ubc_mainDeps s p e) evOrder s

@[simp] lemma ubcs_mainCu (s : AdapterState) (p : Props) :
    (useBindCleanups s p).mainCu = s.mainCu :=
  foldl_pres _ (fun s => s.mainCu) (fun s e => ubc_mainCu s p e) evOrder s

@[simp] lemma ubcs_nextTerm (s : AdapterState) (p : Props) :
    (useBindCleanups s p).nextTerm = s.nextTerm :=
  foldl_pres _ (fun s => s.nextTerm) (fun s e => ubc_nextTerm s p e) evOrder s

@[simp] lemma ubcs_nextBind (s : AdapterState) (p : Props) :
    (useBindCleanups s p).nextBind = s.nextBind :=
  foldl_pres _ (fun s => s.nextBind) (fun s e => ubc_nextBind s p e) evOrder s

@[simp] lemma ubcs_divAttached (s : AdapterState) (p : Props) :
    (useBindCleanups s p).divAttached = s.divAttached :=
  foldl_pres _ (fun s => s.divAttached) (fun s e => ubc_divAttached s p e) evOrder s

@[simp] lemma ubcs_initDeps (s : AdapterState) (p : Props) :
    (useBindCleanups s p).initDeps = s.initDeps :=
  foldl_pres _ (fun s => s.initDeps) (fun s e => ubc_initDeps s p e) evOrder s

lemma ubcs_trace (s : AdapterState) (p : Props) :
    ∃ A, (useBindCleanups s p).trace = s.trace ++ A ∧
      ∀ a ∈ A, isDisposeBindingA a = true :=
  foldl_trace _ _ (fun s e => ubc_trace s p e) evOrder s

/-- After phase 1 over all twelve events, every `useBind` effect whose
dependency changed has no stored cleanup left. -/
lemma ubc_estab (s : AdapterState) (p : Props) (e : EvName) :
    (useBindCleanup s p e).bindDeps e ≠ some (p.handlers e) →
      (useBindCleanup s p e).bindCu e = none := by
  rw [ubc_bindDeps]
  intro hne
  unfold useBindCleanup
  rw [if_neg hne]
  split
  · assumption
  · simp

lemma ubcs_cleared (s : AdapterState) (p : Props) (e : EvName)
    (h : s.bindDeps e ≠ some (p.handlers e)) :
    (useBindCleanups s p).bindCu e = none := by
  have := foldl_estab
    (fun s e => s.bindDeps e ≠ some (p.handlers e) → s.bindCu e = none)
    (fun t e => useBindCleanup t p e)
    (fun s e => ubc_estab s p e)
    (fun s e e' hR => by
      intro hne
      rw [ubc_bindDeps] at hne
      by_cases hee : e = e'
      · subst hee; exact ubc_estab s p e (by rw [ubc_bindDeps]; exact hne)
      · rw [ubc_bindCu_other s p e' e hee]
        exact hR hne)
    evOrder s e (mem_evOrder e)
  have hq : (useBindCleanups s p).bindDeps e ≠ some (p.handlers e) := by
    rw [ubcs_bindDeps]; exact h
  exact this hq

@[simp] lemma ubbs_xtermRef (s : AdapterState) (p : Props) :
    (useBindBodies s p).xtermRef = s.xtermRef :=
  foldl_pres _ (fun s => s.xtermRef) (fun s e => ubb_xtermRef s p e) evOrder s

@[simp] lemma ubbs_mainDeps (s : AdapterState) (p : Props) :
    (useBindBodies s p).mainDeps = s.mainDeps :=
  foldl_pres _ (fun s => s.mainDeps) (fun s e => ubb_mainDeps s p e) evOrder s

@[simp] lemma ubbs_mainCu (s : AdapterState) (p : Props) :
    (useBindBodies s p).mainCu = s.mainCu :=
  foldl_pres _ (fun s => s.mainCu) (fun s e => ubb_mainCu s p e) evOrder s

@[simp] lemma ubbs_nextTerm (s : AdapterState) (p : Props) :
    (useBindBodies s p).nextTerm = s.nextTerm :=
  foldl_pres _ (fun s => s.nextTerm) (fun s e => ubb_nextTerm s p e) evOrder s

@[simp] lemma ubbs_divAttached (s : AdapterState) (p : Props) :
    (useBindBodies s p).divAttached = s.divAttached :=
  foldl_pres _ (fun s => s.divAttached) (fun s e => ubb_divAttached s p e) evOrder s

@[simp] lemma ubbs_initDeps (s : AdapterState) (p : Props) :
    (useBindBodies s p).initDeps = s.initDeps :=
  foldl_pres _ (fun s => s.initDeps) (fun s e => ubb_initDeps s p e) evOrder s

lemma ubbs_trace (s : AdapterState) (p : Props) :
    ∃ A, (useBindBodies s p).trace = s.trace ++ A ∧
      ∀ a ∈ A, ∃ b t e h, a = XAct.bindEvent b t e h ∧ p.handlers e = some h := by
  refine foldl_trace _ _ (fun s e => ?_) evOrder s
  obtain ⟨A, hA, hP⟩ := ubb_trace s p e
  refine ⟨A, hA, fun a ha => ?_⟩
  obtain ⟨b, t, h, rfl, hh, _⟩ := hP a ha
  exact ⟨b, t, e, h, rfl, hh⟩

lemma umfold_trace (s : AdapterState) (l : List EvName) :
    ∃ A, (l.foldl unmountBindCu s).trace = s.trace ++ A ∧
      ∀ a ∈ A, isDisposeBindingA a = true :=
  foldl_trace _ _ (fun s e => umb_trace s e) l s

@[simp] lemma umfold_xtermRef (s : AdapterState) (l : List EvName) :
    (l.foldl unmountBindCu s).xtermRef = s.xtermRef :=
  foldl_pres _ (fun s => s.xtermRef) (fun s e => umb_xtermRef s e) l s

@[simp] lemma umfold_mainCu (s : AdapterState) (l : List EvName) :
    (l.foldl unmountBindCu s).mainCu = s.mainCu :=
  foldl_pres _ (fun s => s.mainCu) (fun s e => umb_mainCu s e) l s

/-- Unmount disposes (hence clears) every stored `useBind` cleanup. -/
lemma umfold_cleared (s : AdapterState) (e : EvName) :
    ((evOrder.foldl unmountBindCu s)).bindCu e = none :=
  foldl_estab (fun s e => s.bindCu e = none) unmountBindCu
    (fun s e => umb_bindCu_self s e)
    (fun s e e' h => by
      by_cases hee : e = e'
      · subst hee; exact umb_bindCu_self s e
      · exact umb_bindCu_none s e' e h)
    evOrder s e (mem_evOrder e)

/-! ## Commit-level decomposition lemmas -/

lemma bindOrInit_of_bindEvent (a : XAct)
    (h : ∃ b t e hh, a = XAct.bindEvent b t e hh ∧ True) :
    isBindOrInitA a = true := by
  obtain ⟨b, t, e, hh, rfl, _⟩ := h
  rfl

/-- Trace decomposition of a commit in which the `options` identity changed
(and hence the main effect re-runs): the main cleanup block, then the
cleanups of re-running `useBind` effects, then the construction block, then
binding attachments and a possible `onInit` call. -/
lemma commit_trace_run (env : Nat → Bool) (s : AdapterState) (p : Props)
    (hdiv : s.divAttached = true) (hrun : s.mainDeps ≠ some p.options) :
    ∃ A B, (xtermCommit env s p).trace =
        s.trace ++ mainCuActs env s.mainCu ++ A ++ mainBodyActs s.nextTerm p ++ B ∧
      (∀ a ∈ A, isDisposeBindingA a = true) ∧
      (∀ a ∈ B, isBindOrInitA a = true) := by
  unfold xtermCommit
  rw [if_neg hrun]
  set s1 := xtermMainCleanup env s with hs1
  obtain ⟨A, hA, hAP⟩ := ubcs_trace s1 p
  set s2 := useBindCleanups s1 p with hs2
  have hdiv2 : s2.divAttached = true := by
    rw [hs2, ubcs_divAttached, hs1, mc_divAttached]; exact hdiv
  have hnt2 : s2.nextTerm = s.nextTerm := by
    rw [hs2, ubcs_nextTerm, hs1, mc_nextTerm]
  set s3 := xtermMainBody s2 p with hs3
  have h3 : s3.trace = s2.trace ++ mainBodyActs s.nextTerm p := by
    rw [hs3, mb_of_div s2 p hdiv2, hnt2]
  obtain ⟨B1, hB1, hB1P⟩ := ubbs_trace s3 p
  set s4 := useBindBodies s3 p with hs4
  obtain ⟨B2, hB2, hB2P⟩ := ib_trace s4 p s.xtermRef
  refine ⟨A, B1 ++ B2, ?_, hAP, ?_⟩
  · rw [hB2, hB1, h3, hA, mc_trace]
    simp [List.append_assoc]
  · intro a ha
    rcases List.mem_append.mp ha with h | h
    · obtain ⟨b, t, e, hh, rfl, _⟩ := hB1P a h
      rfl
    · obtain ⟨t, rfl, _⟩ := hB2P a h
      rfl

/-- Trace decomposition of a commit in which the `options` identity is
unchanged: no teardown and no construction happen; only `useBind` cleanups,
binding attachments and a possible `onInit` call are appended. -/
lemma commit_trace_norun (env : Nat → Bool) (s : AdapterState) (p : Props)
    (hrun : s.mainDeps = some p.options) :
    ∃ A B, (xtermCommit env s p).trace = s.trace ++ A ++ B ∧
      (∀ a ∈ A, isDisposeBindingA a = true) ∧
      (∀ a ∈ B, isBindOrInitA a = true) := by
  unfold xtermCommit
  rw [if_pos hrun]
  obtain ⟨A, hA, hAP⟩ := ubcs_trace s p
  set s2 := useBindCleanups s p with hs2
  obtain ⟨B1, hB1, hB1P⟩ := ubbs_trace s2 p
  set s4 := useBindBodies s2 p with hs4
  obtain ⟨B2, hB2, hB2P⟩ := ib_trace s4 p s.xtermRef
  refine ⟨A, B1 ++ B2, ?_, hAP, ?_⟩
  · rw [hB2, hB1, hA]
    simp [List.append_assoc]
  · intro a ha
    rcases List.mem_append.mp ha with h | h
    · obtain ⟨b, t, e, hh, rfl, _⟩ := hB1P a h
      rfl
    · obtain ⟨t, rfl, _⟩ := hB2P a h
      rfl

/-- Every commit only appends to the trace. -/
lemma commit_trace_mono (env : Nat → Bool) (s : AdapterState) (p : Props) :
    ∃ A, (xtermCommit env s p).trace = s.trace ++ A := by
  by_cases hrun : s.mainDeps = some p.options
  · obtain ⟨A, B, h, _, _⟩ := commit_trace_norun env s p hrun
    exact ⟨A ++ B, by rw [h, List.append_assoc]⟩
  · unfold xtermCommit
    rw [if_neg hrun]
    set s1 := xtermMainCleanup env s with hs1
    obtain ⟨A, hA, _⟩ := ubcs_trace s1 p
    set s2 := useBindCleanups s1 p with hs2
    by_cases hdiv2 : s2.divAttached = true
    · obtain ⟨B1, hB1, _⟩ := ubbs_trace (xtermMainBody s2 p) p
      obtain ⟨B2, hB2, _⟩ := ib_trace (useBindBodies (xtermMainBody s2 p) p) p s.xtermRef
      refine ⟨mainCuActs env s.mainCu ++ A ++ mainBodyActs s2.nextTerm p ++ B1 ++ B2, ?_⟩
      rw [hB2, hB1, mb_of_div s2 p hdiv2]
      show s2.trace ++ _ ++ _ ++ _ = _
      rw [hA, mc_trace]
      simp [List.append_assoc]
    · have hmb : xtermMainBody s2 p = { s2 with mainDeps := some p.options, mainCu := none } := by
        unfold xtermMainBody
        rw [if_neg hdiv2]
      obtain ⟨B1, hB1, _⟩ := ubbs_trace (xtermMainBody s2 p) p
      obtain ⟨B2, hB2, _⟩ := ib_trace (useBindBodies (xtermMainBody s2 p) p) p s.xtermRef
      refine ⟨mainCuActs env s.mainCu ++ A ++ B1 ++ B2, ?_⟩
      rw [hB2, hB1, hmb]
      show s2.trace ++ _ ++ _ = _
      rw [hA, mc_trace]
      simp [List.append_assoc]

/-! ## Membership characterizations of the action blocks -/

lemma mem_mainCleanupActs {a : XAct} {env : Nat → Bool} {t : Nat} {d : Bool}
    (h : a ∈ mainCleanupActs env t d) :
    a = XAct.onDisposeCall t ∨ a = XAct.disposeTerm t (env t) ∨ a = XAct.logError t := by
  cases d <;> cases henv : env t <;>
    simp [mainCleanupActs, henv] at h <;> tauto

lemma mem_mainCuActs {a : XAct} {env : Nat → Bool} {mc : Option (Nat × Bool)}
    (h : a ∈ mainCuActs env mc) :
    ∃ t, a = XAct.onDisposeCall t ∨ a = XAct.disposeTerm t (env t) ∨ a = XAct.logError t := by
  match mc with
  | none => cases h
  | some (t, d) => exact ⟨t, mem_mainCleanupActs h⟩

lemma mem_mainBodyActs {a : XAct} {t : Nat} {p : Props}
    (h : a ∈ mainBodyActs t p) :
    a = XAct.createTerm t p.options ∨ (∃ x ∈ p.addons, a = XAct.loadAddon t x) ∨
      (∃ hh, a = XAct.attachCustomKE t hh ∧ p.customKeyEventHandler = some hh) ∨
      a = XAct.openTerm t := by
  unfold mainBodyActs at h
  rcases List.mem_cons.mp h with rfl | h
  · exact Or.inl rfl
  rcases List.mem_append.mp h with h | h
  · obtain ⟨x, hx, rfl⟩ := List.mem_map.mp h
    exact Or.inr (Or.inl ⟨x, hx, rfl⟩)
  rcases List.mem_append.mp h with h | h
  · match hcke : p.customKeyEventHandler with
    | some hh => rw [hcke] at h
                 rcases List.mem_singleton.mp h with rfl
                 exact Or.inr (Or.inr (Or.inl ⟨hh, rfl, rfl⟩))
    | none => rw [hcke] at h; cases h
  · rcases List.mem_singleton.mp h with rfl
    exact Or.inr (Or.inr (Or.inr rfl))

lemma eq_of_isDisposeBindingA {a : XAct} (h : isDisposeBindingA a = true) :
    ∃ b, a = XAct.disposeBinding b := by
  cases a <;> simp [isDisposeBindingA] at h ⊢

lemma eq_of_isBindOrInitA {a : XAct} (h : isBindOrInitA a = true) :
    (∃ b t e hh, a = XAct.bindEvent b t e hh) ∨ (∃ b, a = XAct.disposeBinding b) ∨
      ∃ t, a = XAct.onInitCall t := by
  cases a <;> simp [isBindOrInitA] at h ⊢

lemma openTerm_mem_mainBodyActs (t : Nat) (p : Props) :
    XAct.openTerm t ∈ mainBodyActs t p := by
  unfold mainBodyActs
  refine List.mem_cons_of_mem _ (List.mem_append_right _ (List.mem_append_right _ ?_))
  exact List.mem_singleton.mpr rfl

/-- Running the init effect when its dependency changed, the ref is set and
`onInit` is callable. -/
lemma ib_run (s : AdapterState) (p : Props) (n : Option Nat) (t : Nat)
    (hdep : s.initDeps ≠ some n) (href : s.xtermRef = some t) (hinit : p.onInit = true) :
    xtermInitBody s p n =
      { s with trace := s.trace ++ [XAct.onInitCall t], initDeps := some n } := by
  unfold xtermInitBody
  rw [if_neg hdep, href, hinit]

/-- Running the init effect when its dependency is unchanged: nothing happens. -/
lemma ib_id (s : AdapterState) (p : Props) (n : Option Nat)
    (hdep : s.initDeps = some n) : xtermInitBody s p n = s := by
  unfold xtermInitBody
  rw [if_pos hdep]

/-! ## Claim theorems -/

/-- C7 (confirmed): whenever the main effect runs (initial mount, or an
options-identity change on a mounted adapter), the commit's appended actions
contain the block `createTerm n` followed immediately by the `loadAddon`
calls for `p.addons` in caller-supplied list order — so each supplied addon's
load operation is invoked exactly once, during construction, and A's load
precedes B's for `addons = [A, B]` — and no `loadAddon` call occurs anywhere
else in the commit. -/
theorem c7_addons_loaded_once_in_order (env : Nat → Bool) (s : AdapterState) (p : Props)
    (hdiv : s.divAttached = true) (hrun : s.mainDeps ≠ some p.options) :
    ∃ A B, (xtermCommit env s p).trace =
        s.trace ++ A ++ (XAct.createTerm s.nextTerm p.options ::
          p.addons.map (XAct.loadAddon s.nextTerm)) ++ B ∧
      (∀ a ∈ A, isLoadA a = false) ∧ (∀ a ∈ B, isLoadA a = false) := by
  obtain ⟨A, B, htr, hA, hB⟩ := commit_trace_run env s p hdiv hrun
  refine ⟨mainCuActs env s.mainCu ++ A,
    ((match p.customKeyEventHandler with
      | some h => [XAct.attachCustomKE s.nextTerm h]
      | none => []) ++ [XAct.openTerm s.nextTerm]) ++ B, ?_, ?_, ?_⟩
  · rw [htr]
    simp [mainBodyActs, List.append_assoc]
  · intro a ha
    rcases List.mem_append.mp ha with h | h
    · obtain ⟨t, h | h | h⟩ := mem_mainCuActs h <;> subst h <;> rfl
    · obtain ⟨b, rfl⟩ := eq_of_isDisposeBindingA (hA a h)
      rfl
  · intro a ha
    rcases List.mem_append.mp ha with h | h
    · rcases List.mem_append.mp h with h | h
      · match hcke : p.customKeyEventHandler with
        | some hh => rw [hcke] at h
                     rcases List.mem_singleton.mp h with rfl
                     rfl
        | none => rw [hcke] at h; cases h
      · rcases List.mem_singleton.mp h with rfl
        rfl
    · rcases eq_of_isBindOrInitA (hB a h) with ⟨b, t, e, hh, rfl⟩ | ⟨b, rfl⟩ | ⟨t, rfl⟩ <;> rfl

/-- C6 (confirmed): on any mount of the adapter with a callable `onInit`, the
first commit's trace ends with the `onInit` call for the new instance, and the
`open` of that instance into the container occurs strictly before it (the
`onInit` call occurs nowhere earlier). -/
theorem c6_onInit_strictly_after_open (env : Nat → Bool) (p : Props)
    (hinit : p.onInit = true) :
    ∃ A, (xtermCommit env initState p).trace = A ++ [XAct.onInitCall 0] ∧
      XAct.openTerm 0 ∈ A ∧ XAct.onInitCall 0 ∉ A := by
  have hrun : initState.mainDeps ≠ some p.options := by simp [initState]
  have hmc : xtermMainCleanup env initState = initState := rfl
  unfold xtermCommit
  rw [if_neg hrun, hmc]
  obtain ⟨A0, hA0, hA0P⟩ := ubcs_trace initState p
  set s2 := useBindCleanups initState p with hs2
  have hdiv2 : s2.divAttached = true := by rw [hs2, ubcs_divAttached]; rfl
  have hnt2 : s2.nextTerm = 0 := by rw [hs2, ubcs_nextTerm]; rfl
  have hmb := mb_of_div s2 p hdiv2
  rw [hnt2] at hmb
  set s3 := xtermMainBody s2 p with hs3
  have h3tr : s3.trace = s2.trace ++ mainBodyActs 0 p := by rw [hmb]
  have h3ref : s3.xtermRef = some 0 := by rw [hmb]
  have h3id : s3.initDeps = none := by
    rw [hs3, mb_initDeps, hs2, ubcs_initDeps]
    rfl
  obtain ⟨B1, hB1, hB1P⟩ := ubbs_trace s3 p
  set s4 := useBindBodies s3 p with hs4
  have h4ref : s4.xtermRef = some 0 := by rw [hs4, ubbs_xtermRef, h3ref]
  have h4id : s4.initDeps = none := by rw [hs4, ubbs_initDeps, h3id]
  have hfin := ib_run s4 p initState.xtermRef 0
    (by rw [h4id]; simp [initState]) h4ref hinit
  rw [hfin]
  refine ⟨s4.trace, rfl, ?_, ?_⟩
  · rw [hs4]
    obtain ⟨B1x, hB1x, _⟩ := ubbs_trace s3 p
    rw [hB1x, h3tr]
    exact List.mem_append_left _ (List.mem_append_right _ (openTerm_mem_mainBodyActs 0 p))
  · intro hmem
    rw [hs4] at hmem
    rw [hB1, h3tr, hA0] at hmem
    rcases List.mem_append.mp hmem with h | h
    · rcases List.mem_append.mp h with h | h
      · rcases List.mem_append.mp h with h | h
        · simp [initState] at h
        · obtain ⟨b, heq⟩ := eq_of_isDisposeBindingA (hA0P _ h)
          simp at heq
      · rcases mem_mainBodyActs h with heq | ⟨x, _, heq⟩ | ⟨hh, heq, _⟩ | heq <;> simp at heq
    · obtain ⟨b, t, e, hh, heq, _⟩ := hB1P _ h
      simp at heq

lemma mainCleanupActs_countP_disposeTerm (env : Nat → Bool) (t : Nat) (d : Bool) :
    (mainCleanupActs env t d).countP isDisposeTermA = 1 := by
  cases d <;> cases henv : env t <;>
    simp [mainCleanupActs, henv, isDisposeTermA]

lemma mainCleanupActs_countP_create (env : Nat → Bool) (t : Nat) (d : Bool) :
    (mainCleanupActs env t d).countP isCreateA = 0 := by
  cases d <;> cases henv : env t <;>
    simp [mainCleanupActs, henv, isCreateA]

lemma mainBodyActs_countP_create (t : Nat) (p : Props) :
    (mainBodyActs t p).countP isCreateA = 1 := by
  have hmap : (p.addons.map (XAct.loadAddon t)).countP isCreateA = 0 := by
    rw [List.countP_eq_zero]
    intro a ha
    obtain ⟨x, _, rfl⟩ := List.mem_map.mp ha
    simp [isCreateA]
  cases hk : p.customKeyEventHandler <;>
    simp [mainBodyActs, hk, isCreateA, List.countP_cons, List.countP_append, hmap]

lemma mainBodyActs_countP_disposeTerm (t : Nat) (p : Props) :
    (mainBodyActs t p).countP isDisposeTermA = 0 := by
  have hmap : (p.addons.map (XAct.loadAddon t)).countP isDisposeTermA = 0 := by
    rw [List.countP_eq_zero]
    intro a ha
    obtain ⟨x, _, rfl⟩ := List.mem_map.mp ha
    simp [isDisposeTermA]
  cases hk : p.customKeyEventHandler <;>
    simp [mainBodyActs, hk, isDisposeTermA, List.countP_cons, List.countP_append, hmap]

/-- C2 (corrected): an options-identity change on a mounted adapter performs
exactly one teardown — `onDispose` (when it was captured) immediately before
the single `disposeTerm` — followed by exactly one fresh construction — a
single `createTerm` with the new options, then all supplied addon loads in
order, then the custom key handler attach (if any), then `open` — with only
binding disposals between the two blocks and only binding/`onInit` actions
after.  (Unlike the original claim, an `onInit` call for the new instance is
NOT guaranteed; see the counterexample.) -/
theorem c2_options_change_one_teardown_one_construction (env : Nat → Bool)
    (s : AdapterState) (p : Props) (t : Nat) (d : Bool) (o : Option Nat)
    (hdiv : s.divAttached = true) (hcu : s.mainCu = some (t, d))
    (hdeps : s.mainDeps = some o) (hne : p.options ≠ o) :
    ∃ A B,
      (xtermCommit env s p).trace =
        s.trace ++ mainCleanupActs env t d ++ A ++ mainBodyActs s.nextTerm p ++ B ∧
      (∀ a ∈ A, isDisposeBindingA a = true) ∧
      (∀ a ∈ B, isBindOrInitA a = true) ∧
      (mainCleanupActs env t d).countP isDisposeTermA = 1 ∧
      (mainCleanupActs env t d).countP isCreateA = 0 ∧
      (mainBodyActs s.nextTerm p).countP isCreateA = 1 ∧
      (mainBodyActs s.nextTerm p).countP isDisposeTermA = 0 ∧
      (d = true → mainCleanupActs env t d =
        XAct.onDisposeCall t :: XAct.disposeTerm t (env t) ::
          (if env t then [XAct.logError t] else [])) ∧
      mainBodyActs s.nextTerm p =
        XAct.createTerm s.nextTerm p.options ::
          (p.addons.map (XAct.loadAddon s.nextTerm) ++
            ((match p.customKeyEventHandler with
              | some h => [XAct.attachCustomKE s.nextTerm h]
              | none => []) ++ [XAct.openTerm s.nextTerm])) := by
  have hrun : s.mainDeps ≠ some p.options := by
    rw [hdeps]
    intro hcon
    exact hne (Option.some_inj.mp hcon).symm
  obtain ⟨A, B, htr, hA, hB⟩ := commit_trace_run env s p hdiv hrun
  rw [hcu] at htr
  refine ⟨A, B, htr, hA, hB,
    mainCleanupActs_countP_disposeTerm env t d,
    mainCleanupActs_countP_create env t d,
    mainBodyActs_countP_create s.nextTerm p,
    mainBodyActs_countP_disposeTerm s.nextTerm p,
    ?_, rfl⟩
  intro hd
  subst hd
  simp [mainCleanupActs]

set_option maxRecDepth 8000 in
/-- C2 counterexample: with `onInit` and `onDispose` supplied on every render,
the render sequence `[qB, qB, qB2]` (a re-render with unchanged props, then an
options-identity change) constructs the new instance 1 but never invokes
`onInit` with it — and instead invoked `onInit` twice with instance 0 — so the
original claim that recreation includes an `onInit` call for the new instance
is false. -/
theorem c2_counterexample_onInit_skipped :
    XAct.createTerm 1 (some 1) ∈ (runMounted envOk [qB, qB, qB2]).trace ∧
    XAct.onInitCall 1 ∉ (runMounted envOk [qB, qB, qB2]).trace ∧
    (runMounted envOk [qB, qB, qB2]).trace.count (XAct.onInitCall 0) = 2 := by
  decide

set_option maxRecDepth 8000 in
/-- Witness for C2's theorem: the state after mounting with `qB`, recreated
with `qB2`'s new options identity. -/
theorem c2_witness :
    (runMounted envOk [qB]).divAttached = true ∧
    (runMounted envOk [qB]).mainCu = some (0, true) ∧
    (runMounted envOk [qB]).mainDeps = some (some 0) ∧
    qB2.options ≠ some 0 ∧
    ∃ A B,
      (xtermCommit envOk (runMounted envOk [qB]) qB2).trace =
        (runMounted envOk [qB]).trace ++ mainCleanupActs envOk 0 true ++ A ++
          mainBodyActs (runMounted envOk [qB]).nextTerm qB2 ++ B ∧
      (∀ a ∈ A, isDisposeBindingA a = true) ∧
      (∀ a ∈ B, isBindOrInitA a = true) ∧
      (mainCleanupActs envOk 0 true).countP isDisposeTermA = 1 ∧
      (mainCleanupActs envOk 0 true).countP isCreateA = 0 ∧
      (mainBodyActs (runMounted envOk [qB]).nextTerm qB2).countP isCreateA = 1 ∧
      (mainBodyActs (runMounted envOk [qB]).nextTerm qB2).countP isDisposeTermA = 0 ∧
      (true = true → mainCleanupActs envOk 0 true =
        XAct.onDisposeCall 0 :: XAct.disposeTerm 0 (envOk 0) ::
          (if envOk 0 then [XAct.logError 0] else [])) ∧
      mainBodyActs (runMounted envOk [qB]).nextTerm qB2 =
        XAct.createTerm (runMounted envOk [qB]).nextTerm qB2.options ::
          ((qB2.addons).map (XAct.loadAddon (runMounted envOk [qB]).nextTerm) ++
            ((match qB2.customKeyEventHandler with
              | some h => [XAct.attachCustomKE (runMounted envOk [qB]).nextTerm h]
              | none => []) ++ [XAct.openTerm (runMounted envOk [qB]).nextTerm])) :=
  ⟨by decide, by decide, by decide, by decide,
    c2_options_change_one_teardown_one_construction envOk (runMounted envOk [qB])
      qB2 0 true (some 0) (by decide) (by decide) (by decide) (by decide)⟩

/-- Witness for C6's theorem: mounting with `qB` (callable `onInit`). -/
theorem c6_witness :
    qB.onInit = true ∧
    ∃ A, (xtermCommit envOk initState qB).trace = A ++ [XAct.onInitCall 0] ∧
      XAct.openTerm 0 ∈ A ∧ XAct.onInitCall 0 ∉ A :=
  ⟨rfl, c6_onInit_strictly_after_open envOk qB rfl⟩

/-- Witness for C7's theorem: mounting with the two addons of `pAdd`. -/
theorem c7_witness :
    initState.divAttached = true ∧ initState.mainDeps ≠ some pAdd.options ∧
    ∃ A B, (xtermCommit envOk initState pAdd).trace =
        initState.trace ++ A ++ (XAct.createTerm initState.nextTerm pAdd.options ::
          pAdd.addons.map (XAct.loadAddon initState.nextTerm)) ++ B ∧
      (∀ a ∈ A, isLoadA a = false) ∧ (∀ a ∈ B, isLoadA a = false) :=
  ⟨by decide, by decide,
    c7_addons_loaded_once_in_order envOk initState pAdd (by decide) (by decide)⟩

lemma evOrder_nodup : evOrder.Nodup := by decide

lemma ubcs_fold_single (p : Props) (e : EvName) :
    ∀ (l : List EvName) (s : AdapterState),
      (∀ e', e' ≠ e → s.bindDeps e' = some (p.handlers e')) → l.Nodup →
      ((e ∈ l → l.foldl (fun t x => useBindCleanup t p x) s = useBindCleanup s p e) ∧
       (e ∉ l → l.foldl (fun t x => useBindCleanup t p x) s = s)) := by
  intro l
  induction l with
  | nil =>
      intro s _ _
      exact ⟨fun h => absurd h (List.not_mem_nil e), fun _ => rfl⟩
  | cons a l ih =>
      intro s hothers hnd
      obtain ⟨hnotin, hnd'⟩ := List.nodup_cons.mp hnd
      constructor
      · intro he
        rw [List.foldl_cons]
        by_cases hae : a = e
        · subst hae
          have hothers' : ∀ e', e' ≠ a →
              (useBindCleanup s p a).bindDeps e' = some (p.handlers e') := by
            intro e' hne
            rw [ubc_bindDeps]
            exact hothers e' hne
          exact (ih (useBindCleanup s p a) hothers' hnd').2 hnotin
        · have hid : useBindCleanup s p a = s := ubc_id s p a (hothers a hae)
          rw [hid]
          have hel : e ∈ l := by
            rcases List.mem_cons.mp he with h | h
            · exact absurd h.symm hae
            · exact h
          exact (ih s hothers hnd').1 hel
      · intro he
        rw [List.foldl_cons]
        have hae : a ≠ e := fun h => he (h ▸ List.mem_cons_self a l)
        have hid : useBindCleanup s p a = s := ubc_id s p a (hothers a hae)
        rw [hid]
        exact (ih s hothers hnd').2 (fun h => he (List.mem_cons_of_mem a h))

/-- When only event `e`'s handler dependency changed, phase 1 is exactly the
cleanup of `e`. -/
lemma ubcs_single (s : AdapterState) (p : Props) (e : EvName)
    (hothers : ∀ e', e' ≠ e → s.bindDeps e' = some (p.handlers e')) :
    useBindCleanups s p = useBindCleanup s p e :=
  (ubcs_fold_single p e evOrder s hothers evOrder_nodup).1 (mem_evOrder e)

lemma ubbs_fold_single (p : Props) (e : EvName) :
    ∀ (l : List EvName) (s : AdapterState),
      (∀ e', e' ≠ e → s.bindDeps e' = some (p.handlers e')) → l.Nodup →
      ((e ∈ l → l.foldl (fun t x => useBindBody t p x) s = useBindBody s p e) ∧
       (e ∉ l → l.foldl (fun t x => useBindBody t p x) s = s)) := by
  intro l
  induction l with
  | nil =>
      intro s _ _
      exact ⟨fun h => absurd h (List.not_mem_nil e), fun _ => rfl⟩
  | cons a l ih =>
      intro s hothers hnd
      obtain ⟨hnotin, hnd'⟩ := List.nodup_cons.mp hnd
      constructor
      · intro he
        rw [List.foldl_cons]
        by_cases hae : a = e
        · subst hae
          have hothers' : ∀ e', e' ≠ a →
              (useBindBody s p a).bindDeps e' = some (p.handlers e') := by
            intro e' hne
            rw [ubb_bindDeps_other s p a e' hne]
            exact hothers e' hne
          exact (ih (useBindBody s p a) hothers' hnd').2 hnotin
        · have hid : useBindBody s p a = s := ubb_id s p a (hothers a hae)
          rw [hid]
          have hel : e ∈ l := by
            rcases List.mem_cons.mp he with h | h
            · exact absurd h.symm hae
            · exact h
          exact (ih s hothers hnd').1 hel
      · intro he
        rw [List.foldl_cons]
        have hae : a ≠ e := fun h => he (h ▸ List.mem_cons_self a l)
        have hid : useBindBody s p a = s := ubb_id s p a (hothers a hae)
        rw [hid]
        exact (ih s hothers hnd').2 (fun h => he (List.mem_cons_of_mem a h))

/-- When only event `e`'s handler dependency changed, phase 2 is exactly the
body of `e`. -/
lemma ubbs_single (s : AdapterState) (p : Props) (e : EvName)
    (hothers : ∀ e', e' ≠ e → s.bindDeps e' = some (p.handlers e')) :
    useBindBodies s p = useBindBody s p e :=
  (ubbs_fold_single p e evOrder s hothers evOrder_nodup).1 (mem_evOrder e)

/-- The init effect appends either nothing or exactly one `onInit` call. -/
lemma ib_trace2 (s : AdapterState) (p : Props) (n : Option Nat) :
    (xtermInitBody s p n).trace = s.trace ∨
      ∃ t, s.xtermRef = some t ∧ p.onInit = true ∧
        (xtermInitBody s p n).trace = s.trace ++ [XAct.onInitCall t] := by
  unfold xtermInitBody
  split
  · exact Or.inl rfl
  · split
    · rename_i t heq1 heq2
      exact Or.inr ⟨t, heq1, heq2, rfl⟩
    · exact Or.inl rfl

/-- An active `useBind` cleanup (changed dependency, stored binding). -/
lemma ubc_run (s : AdapterState) (p : Props) (e : EvName) (b : Nat)
    (hne : s.bindDeps e ≠ some (p.handlers e)) (hcu : s.bindCu e = some b) :
    useBindCleanup s p e =
      { s with trace := s.trace ++ [XAct.disposeBinding b]
               bindCu := fun x => if x = e then none else s.bindCu x } := by
  unfold useBindCleanup
  rw [if_neg hne, hcu]

/-- An active `useBind` body (changed dependency, live ref, callable handler). -/
lemma ubb_run (s : AdapterState) (p : Props) (e : EvName) (t g : Nat)
    (hne : s.bindDeps e ≠ some (p.handlers e)) (href : s.xtermRef = some t)
    (hh : p.handlers e = some g) :
    useBindBody s p e =
      { s with trace := s.trace ++ [XAct.bindEvent s.nextBind t e g]
               bindDeps := fun x => if x = e then some (p.handlers e) else s.bindDeps x
               bindCu := fun x => if x = e then some s.nextBind else s.bindCu x
               nextBind := s.nextBind + 1 } := by
  unfold useBindBody
  rw [if_neg hne, href, hh]

/-- If event `e`'s handler dependency is unchanged, its stored cleanup (the
live binding) survives the commit untouched. -/
lemma commit_bindCu_same (env : Nat → Bool) (s : AdapterState) (p : Props) (e : EvName)
    (hsame : s.bindDeps e = some (p.handlers e)) :
    (xtermCommit env s p).bindCu e = s.bindCu e := by
  have hQc : ∀ s2 e2, s2.bindDeps e = some (p.handlers e) →
      (useBindCleanup s2 p e2).bindDeps e = some (p.handlers e) := by
    intro s2 e2 h
    rw [ubc_bindDeps]
    exact h
  have hgc : ∀ s2 e2, s2.bindDeps e = some (p.handlers e) →
      (useBindCleanup s2 p e2).bindCu e = s2.bindCu e := by
    intro s2 e2 h
    by_cases he : e = e2
    · subst he
      rw [ubc_id s2 p e h]
    · exact ubc_bindCu_other s2 p e2 e he
  have hQb : ∀ s2 e2, s2.bindDeps e = some (p.handlers e) →
      (useBindBody s2 p e2).bindDeps e = some (p.handlers e) := by
    intro s2 e2 h
    by_cases he : e = e2
    · subst he
      rw [ubb_id s2 p e h]
      exact h
    · rw [ubb_bindDeps_other s2 p e2 e he]
      exact h
  have hgb : ∀ s2 e2, s2.bindDeps e = some (p.handlers e) →
      (useBindBody s2 p e2).bindCu e = s2.bindCu e := by
    intro s2 e2 h
    by_cases he : e = e2
    · subst he
      rw [ubb_id s2 p e h]
    · exact ubb_bindCu_other s2 p e2 e he
  have hcl : ∀ s2 : AdapterState, s2.bindDeps e = some (p.handlers e) →
      (useBindCleanups s2 p).bindCu e = s2.bindCu e ∧
      (useBindCleanups s2 p).bindDeps e = some (p.handlers e) := by
    intro s2 h
    refine ⟨?_, ?_⟩
    · exact foldl_pres_inv _ (fun x => x.bindCu e) _ hQc hgc evOrder s2 h
    · rw [ubcs_bindDeps]
      exact h
  have hbo : ∀ s2 : AdapterState, s2.bindDeps e = some (p.handlers e) →
      (useBindBodies s2 p).bindCu e = s2.bindCu e := by
    intro s2 h
    exact foldl_pres_inv _ (fun x => x.bindCu e) _ hQb hgb evOrder s2 h
  unfold xtermCommit
  by_cases hmr : s.mainDeps = some p.options
  · rw [if_pos hmr, ib_bindCu]
    obtain ⟨h1, h2⟩ := hcl s hsame
    rw [hbo _ h2, h1]
  · rw [if_neg hmr, ib_bindCu]
    have hmc1 : (xtermMainCleanup env s).bindDeps e = some (p.handlers e) := by
      rw [mc_bindDeps]
      exact hsame
    obtain ⟨h1, h2⟩ := hcl (xtermMainCleanup env s) hmc1
    have h3 : (xtermMainBody (useBindCleanups (xtermMainCleanup env s) p) p).bindDeps e
        = some (p.handlers e) := by
      rw [mb_bindDeps]
      exact h2
    rw [hbo _ h3, mb_bindCu, h1, mc_bindCu]

/-- If event `e`'s handler dependency is unchanged, the commit appends no
`bindEvent` action for `e` (zero additional bindings). -/
lemma commit_trace_same (env : Nat → Bool) (s : AdapterState) (p : Props) (e : EvName)
    (hsame : s.bindDeps e = some (p.handlers e)) :
    ∃ A, (xtermCommit env s p).trace = s.trace ++ A ∧
      ∀ a ∈ A, isBindEventFor e a = false := by
  have hQb : ∀ s2 e2, s2.bindDeps e = some (p.handlers e) →
      (useBindBody s2 p e2).bindDeps e = some (p.handlers e) := by
    intro s2 e2 h
    by_cases he : e = e2
    · subst he
      rw [ubb_id s2 p e h]
      exact h
    · rw [ubb_bindDeps_other s2 p e2 e he]
      exact h
  have hfb : ∀ s2 e2, s2.bindDeps e = some (p.handlers e) →
      ∃ A, (useBindBody s2 p e2).trace = s2.trace ++ A ∧
        ∀ a ∈ A, isBindEventFor e a = false := by
    intro s2 e2 h
    by_cases he : e = e2
    · subst he
      rw [ubb_id s2 p e h]
      exact ⟨[], by simp⟩
    · obtain ⟨A, hA, hP⟩ := ubb_trace s2 p e2
      refine ⟨A, hA, fun a ha => ?_⟩
      obtain ⟨b, t, g, rfl, _, _⟩ := hP a ha
      simp [isBindEventFor]
      exact fun hc => he hc.symm
  have hbo : ∀ s2 : AdapterState, s2.bindDeps e = some (p.handlers e) →
      ∃ A, (useBindBodies s2 p).trace = s2.trace ++ A ∧
        ∀ a ∈ A, isBindEventFor e a = false := by
    intro s2 h
    exact foldl_trace_inv _ _ _ hQb hfb evOrder s2 h
  have hclA : ∀ s2 : AdapterState, ∃ A, (useBindCleanups s2 p).trace = s2.trace ++ A ∧
      ∀ a ∈ A, isBindEventFor e a = false := by
    intro s2
    obtain ⟨A, hA, hP⟩ := ubcs_trace s2 p
    refine ⟨A, hA, fun a ha => ?_⟩
    obtain ⟨b, rfl⟩ := eq_of_isDisposeBindingA (hP a ha)
    rfl
  have hibA : ∀ (s2 : AdapterState) (n : Option Nat),
      ∃ A, (xtermInitBody s2 p n).trace = s2.trace ++ A ∧
        ∀ a ∈ A, isBindEventFor e a = false := by
    intro s2 n
    obtain ⟨A, hA, hP⟩ := ib_trace s2 p n
    refine ⟨A, hA, fun a ha => ?_⟩
    obtain ⟨t, rfl, _⟩ := hP a ha
    rfl
  unfold xtermCommit
  by_cases hmr : s.mainDeps = some p.options
  · rw [if_pos hmr]
    obtain ⟨A1, h1, hP1⟩ := hclA s
    have hd1 : (useBindCleanups s p).bindDeps e = some (p.handlers e) := by
      rw [ubcs_bindDeps]; exact hsame
    obtain ⟨A2, h2, hP2⟩ := hbo _ hd1
    obtain ⟨A3, h3, hP3⟩ := hibA (useBindBodies (useBindCleanups s p) p) s.xtermRef
    refine ⟨A1 ++ A2 ++ A3, ?_, ?_⟩
    · rw [h3, h2, h1]
      simp [List.append_assoc]
    · intro a ha
      rcases List.mem_append.mp ha with h | h
      · rcases List.mem_append.mp h with h | h
        · exact hP1 a h
        · exact hP2 a h
      · exact hP3 a h
  · rw [if_neg hmr]
    have hd0 : (xtermMainCleanup env s).bindDeps e = some (p.handlers e) := by
      rw [mc_bindDeps]; exact hsame
    obtain ⟨A1, h1, hP1⟩ := hclA (xtermMainCleanup env s)
    have hd1 : (useBindCleanups (xtermMainCleanup env s) p).bindDeps e
        = some (p.handlers e) := by
      rw [ubcs_bindDeps]; exact hd0
    set s2 := useBindCleanups (xtermMainCleanup env s) p with hs2
    by_cases hdiv : s2.divAttached = true
    · have hmb := mb_of_div s2 p hdiv
      have hd2 : (xtermMainBody s2 p).bindDeps e = some (p.handlers e) := by
        rw [mb_bindDeps]; exact hd1
      obtain ⟨A2, h2, hP2⟩ := hbo _ hd2
      obtain ⟨A3, h3, hP3⟩ := hibA (useBindBodies (xtermMainBody s2 p) p) s.xtermRef
      refine ⟨mainCuActs env s.mainCu ++ A1 ++ mainBodyActs s2.nextTerm p ++ A2 ++ A3,
        ?_, ?_⟩
      · rw [h3, h2, hmb]
        show s2.trace ++ _ ++ _ ++ _ = _
        rw [h1, mc_trace]
        simp [List.append_assoc]
      · intro a ha
        rcases List.mem_append.mp ha with h | h
        · rcases List.mem_append.mp h with h | h
          · rcases List.mem_append.mp h with h | h
            · rcases List.mem_append.mp h with h | h
              · obtain ⟨t, h | h | h⟩ := mem_mainCuActs h <;> subst h <;> rfl
              · exact hP1 a h
            · rcases mem_mainBodyActs h with rfl | ⟨x, _, rfl⟩ | ⟨hh, rfl, _⟩ | rfl <;> rfl
          · exact hP2 a h
        · exact hP3 a h
    · have hmb : xtermMainBody s2 p = { s2 with mainDeps := some p.options, mainCu := none } := by
        unfold xtermMainBody
        rw [if_neg hdiv]
      have hd2 : (xtermMainBody s2 p).bindDeps e = some (p.handlers e) := by
        rw [mb_bindDeps]; exact hd1
      obtain ⟨A2, h2, hP2⟩ := hbo _ hd2
      obtain ⟨A3, h3, hP3⟩ := hibA (useBindBodies (xtermMainBody s2 p) p) s.xtermRef
      refine ⟨mainCuActs env s.mainCu ++ A1 ++ A2 ++ A3, ?_, ?_⟩
      · rw [h3, h2, hmb]
        show s2.trace ++ _ ++ _ = _
        rw [h1, mc_trace]
        simp [List.append_assoc]
      · intro a ha
        rcases List.mem_append.mp ha with h | h
        · rcases List.mem_append.mp h with h | h
          · rcases List.mem_append.mp h with h | h
            · obtain ⟨t, h | h | h⟩ := mem_mainCuActs h <;> subst h <;> rfl
            · exact hP1 a h
          · exact hP2 a h
        · exact hP3 a h

/-- Replacing only event `e`'s handler reference (old binding `b` stored, new
callable handler `g`) on a mounted adapter with unchanged options: the commit
disposes exactly the one old binding, then creates exactly one new binding
with the new reference on the current instance, and stores it. -/
lemma commit_rebind (env : Nat → Bool) (s : AdapterState) (p : Props) (e : EvName)
    (t b fOld g : Nat)
    (hmr : s.mainDeps = some p.options) (href : s.xtermRef = some t)
    (hdeps : s.bindDeps e = some (some fOld)) (hcu : s.bindCu e = some b)
    (hh : p.handlers e = some g) (hgf : g ≠ fOld)
    (hothers : ∀ e', e' ≠ e → s.bindDeps e' = some (p.handlers e')) :
    ∃ C, (xtermCommit env s p).trace =
        s.trace ++ [XAct.disposeBinding b, XAct.bindEvent s.nextBind t e g] ++ C ∧
      (C = [] ∨ ∃ u, C = [XAct.onInitCall u]) ∧
      (xtermCommit env s p).bindCu e = some s.nextBind := by
  have hne : s.bindDeps e ≠ some (p.handlers e) := by
    rw [hdeps, hh]
    intro hcon
    exact hgf (Option.some_inj.mp (Option.some_inj.mp hcon)).symm
  have hcom : xtermCommit env s p =
      xtermInitBody (useBindBodies (useBindCleanups s p) p) p s.xtermRef := by
    unfold xtermCommit
    rw [if_pos hmr]
  rw [hcom, ubcs_single s p e hothers, ubc_run s p e b hne hcu]
  set s1 : AdapterState :=
    { s with trace := s.trace ++ [XAct.disposeBinding b]
             bindCu := fun x => if x = e then none else s.bindCu x } with hs1
  have hot1 : ∀ e', e' ≠ e → s1.bindDeps e' = some (p.handlers e') := by
    intro e' hne'
    rw [hs1]
    exact hothers e' hne'
  have hne1 : s1.bindDeps e ≠ some (p.handlers e) := by
    rw [hs1]
    exact hne
  have href1 : s1.xtermRef = some t := by
    rw [hs1]
    exact href
  rw [ubbs_single s1 p e hot1, ubb_run s1 p e t g hne1 href1 hh]
  set s2 : AdapterState :=
    { s1 with trace := s1.trace ++ [XAct.bindEvent s1.nextBind t e g]
              bindDeps := fun x => if x = e then some (p.handlers e) else s1.bindDeps x
              bindCu := fun x => if x = e then some s1.nextBind else s1.bindCu x
              nextBind := s1.nextBind + 1 } with hs2
  have hnb : s1.nextBind = s.nextBind := by rw [hs1]
  have hs2tr : s2.trace =
      s.trace ++ [XAct.disposeBinding b, XAct.bindEvent s.nextBind t e g] := by
    rw [hs2, hnb]
    show s1.trace ++ _ = _
    rw [hs1]
    show (s.trace ++ _) ++ _ = _
    rw [List.append_assoc]
    rfl
  have hs2cu : s2.bindCu e = some s.nextBind := by
    rw [hs2, hnb]
    simp
  have hbindcu : (xtermInitBody s2 p s.xtermRef).bindCu e = some s.nextBind := by
    rw [ib_bindCu]
    exact hs2cu
  rcases ib_trace2 s2 p s.xtermRef with htr | ⟨u, _, _, htr⟩
  · refine ⟨[], ?_, Or.inl rfl, hbindcu⟩
    rw [htr, hs2tr]
    simp
  · refine ⟨[XAct.onInitCall u], ?_, Or.inr ⟨u, rfl⟩, hbindcu⟩
    rw [htr, hs2tr]

/-- C5 (confirmed): per event, (i) supplying the same callback reference
across consecutive renders creates zero additional bindings for that event and
leaves its stored binding untouched; (ii) supplying a new callable reference
while the previous one had a live binding `b` disposes exactly that one
binding and creates exactly one new binding with the new reference on the
current instance (possibly followed by one `onInit` call, which is not a
binding action). -/
theorem c5_callback_reference_semantics (env : Nat → Bool) (s : AdapterState)
    (p : Props) (e : EvName) :
    (s.bindDeps e = some (p.handlers e) →
      ∃ A, (xtermCommit env s p).trace = s.trace ++ A ∧
        (∀ a ∈ A, isBindEventFor e a = false) ∧
        (xtermCommit env s p).bindCu e = s.bindCu e) ∧
    (∀ t b fOld g, s.mainDeps = some p.options → s.xtermRef = some t →
      s.bindDeps e = some (some fOld) → s.bindCu e = some b →
      p.handlers e = some g → g ≠ fOld →
      (∀ e', e' ≠ e → s.bindDeps e' = some (p.handlers e')) →
      ∃ C, (xtermCommit env s p).trace =
          s.trace ++ [XAct.disposeBinding b, XAct.bindEvent s.nextBind t e g] ++ C ∧
        (C = [] ∨ ∃ u, C = [XAct.onInitCall u]) ∧
        (xtermCommit env s p).bindCu e = some s.nextBind) := by
  constructor
  · intro hsame
    obtain ⟨A, hA, hP⟩ := commit_trace_same env s p e hsame
    exact ⟨A, hA, hP, commit_bindCu_same env s p e hsame⟩
  · intro t b fOld g h1 h2 h3 h4 h5 h6 h7
    exact commit_rebind env s p e t b fOld g h1 h2 h3 h4 h5 h6 h7

set_option maxRecDepth 8000 in
/-- Witness for C5's theorem: re-render with the same `onData` reference (no
new binding), then with a new reference 7 replacing 5 (one disposal, one new
binding). -/
theorem c5_witness :
    ((runMounted envOk [pA]).bindDeps EvName.onData = some (pA.handlers EvName.onData) ∧
     ∃ A, (xtermCommit envOk (runMounted envOk [pA]) pA).trace
         = (runMounted envOk [pA]).trace ++ A ∧
       (∀ a ∈ A, isBindEventFor EvName.onData a = false) ∧
       (xtermCommit envOk (runMounted envOk [pA]) pA).bindCu EvName.onData
         = (runMounted envOk [pA]).bindCu EvName.onData) ∧
    ((runMounted envOk [pA]).mainDeps = some pA5.options ∧
     ∃ C, (xtermCommit envOk (runMounted envOk [pA]) pA5).trace
         = (runMounted envOk [pA]).trace ++
             [XAct.disposeBinding 0,
              XAct.bindEvent (runMounted envOk [pA]).nextBind 0 EvName.onData 7] ++ C ∧
       (C = [] ∨ ∃ u, C = [XAct.onInitCall u]) ∧
       (xtermCommit envOk (runMounted envOk [pA]) pA5).bindCu EvName.onData
         = some (runMounted envOk [pA]).nextBind) :=
  ⟨⟨by decide,
    (c5_callback_reference_semantics envOk (runMounted envOk [pA]) pA EvName.onData).1
      (by decide)⟩,
   ⟨by decide,
    (c5_callback_reference_semantics envOk (runMounted envOk [pA]) pA5 EvName.onData).2
      0 0 5 7 (by decide) (by decide) (by decide) (by decide) (by decide) (by decide)
      (by decide)⟩⟩

/-- Full characterization of what one commit appends: main-cleanup actions,
binding disposals, construction actions, then binding attachments (only for
events whose handler prop is a callable function) or an `onInit` call. -/
lemma commit_trace_parts (env : Nat → Bool) (s : AdapterState) (p : Props) :
    ∃ A B C D, (xtermCommit env s p).trace = s.trace ++ A ++ B ++ C ++ D ∧
      (∀ a ∈ A, ∃ t, a = XAct.onDisposeCall t ∨ a = XAct.disposeTerm t (env t) ∨
        a = XAct.logError t) ∧
      (∀ a ∈ B, isDisposeBindingA a = true) ∧
      (∀ a ∈ C, ∃ n, a = XAct.createTerm n p.options ∨
        (∃ x ∈ p.addons, a = XAct.loadAddon n x) ∨
        (∃ hh, a = XAct.attachCustomKE n hh ∧ p.customKeyEventHandler = some hh) ∨
        a = XAct.openTerm n) ∧
      (∀ a ∈ D, (∃ b t e hh, a = XAct.bindEvent b t e hh ∧ p.handlers e = some hh) ∨
        ∃ u, a = XAct.onInitCall u ∧ p.onInit = true) := by
  have hD : ∀ s4 : AdapterState,
      ∃ D, (xtermInitBody (useBindBodies s4 p) p s.xtermRef).trace = s4.trace ++ D ∧
        ∀ a ∈ D, (∃ b t e hh, a = XAct.bindEvent b t e hh ∧ p.handlers e = some hh) ∨
          ∃ u, a = XAct.onInitCall u ∧ p.onInit = true := by
    intro s4
    obtain ⟨D1, h1, hP1⟩ := ubbs_trace s4 p
    obtain ⟨D2, h2, hP2⟩ := ib_trace (useBindBodies s4 p) p s.xtermRef
    refine ⟨D1 ++ D2, ?_, ?_⟩
    · rw [h2, h1, List.append_assoc]
    · intro a ha
      rcases List.mem_append.mp ha with h | h
      · exact Or.inl (hP1 a h)
      · obtain ⟨u, rfl, _, hOn⟩ := hP2 a h
        exact Or.inr ⟨u, rfl, hOn⟩
  by_cases hmr : s.mainDeps = some p.options
  · have hcom : xtermCommit env s p =
        xtermInitBody (useBindBodies (useBindCleanups s p) p) p s.xtermRef := by
      unfold xtermCommit
      rw [if_pos hmr]
    obtain ⟨B, hB, hBP⟩ := ubcs_trace s p
    obtain ⟨D, hDt, hDP⟩ := hD (useBindCleanups s p)
    refine ⟨[], B, [], D, ?_, by simp, hBP, by simp, hDP⟩
    rw [hcom, hDt, hB]
    simp [List.append_assoc]
  · have hcom : xtermCommit env s p =
        xtermInitBody
          (useBindBodies (xtermMainBody (useBindCleanups (xtermMainCleanup env s) p) p) p)
          p s.xtermRef := by
      unfold xtermCommit
      rw [if_neg hmr]
    obtain ⟨B, hB, hBP⟩ := ubcs_trace (xtermMainCleanup env s) p
    set s2 := useBindCleanups (xtermMainCleanup env s) p with hs2
    by_cases hdiv : s2.divAttached = true
    · obtain ⟨D, hDt, hDP⟩ := hD (xtermMainBody s2 p)
      refine ⟨mainCuActs env s.mainCu, B, mainBodyActs s2.nextTerm p, D, ?_,
        ?_, hBP, ?_, hDP⟩
      · rw [hcom, hDt, mb_of_div s2 p hdiv]
        show s2.trace ++ mainBodyActs s2.nextTerm p ++ D = _
        rw [hB, mc_trace]
      · intro a ha
        exact mem_mainCuActs ha
      · intro a ha
        exact ⟨s2.nextTerm, mem_mainBodyActs ha⟩
    · have hmb : xtermMainBody s2 p =
          { s2 with mainDeps := some p.options, mainCu := none } := by
        unfold xtermMainBody
        rw [if_neg hdiv]
      obtain ⟨D, hDt, hDP⟩ := hD (xtermMainBody s2 p)
      refine ⟨mainCuActs env s.mainCu, B, [], D, ?_, ?_, hBP, by simp, hDP⟩
      · rw [hcom, hDt, hmb]
        show s2.trace ++ D = _
        rw [hB, mc_trace]
        simp [List.append_assoc]
      · intro a ha
        exact mem_mainCuActs ha

/-- The main-effect cleanup when a closure is stored. -/
lemma mc_run (env : Nat → Bool) (s : AdapterState) (t : Nat) (d : Bool)
    (hcu : s.mainCu = some (t, d)) :
    xtermMainCleanup env s =
      { s with trace := s.trace ++ mainCleanupActs env t d
               xtermRef := none
               mainCu := none } := by
  unfold xtermMainCleanup
  rw [hcu]

/-- C8 (confirmed): if the handler prop for event `e` is absent or not a
callable function (`none`), the commit creates no `EventBinding` for `e`; no
error is raised (the step function is total — the guard in `useBind` simply
skips the binding). -/
theorem c8_no_handler_no_binding (env : Nat → Bool) (s : AdapterState) (p : Props)
    (e : EvName) (hnone : p.handlers e = none) :
    ∃ A, (xtermCommit env s p).trace = s.trace ++ A ∧
      ∀ a ∈ A, isBindEventFor e a = false := by
  obtain ⟨A, B, C, D, htr, hA, hB, hC, hD⟩ := commit_trace_parts env s p
  refine ⟨A ++ B ++ C ++ D, by rw [htr]; simp [List.append_assoc], ?_⟩
  intro a ha
  rcases List.mem_append.mp ha with h | h
  · rcases List.mem_append.mp h with h | h
    · rcases List.mem_append.mp h with h | h
      · obtain ⟨t, h | h | h⟩ := hA a h <;> subst h <;> rfl
      · obtain ⟨b, rfl⟩ := eq_of_isDisposeBindingA (hB a h)
        rfl
    · obtain ⟨n, h | ⟨x, _, h⟩ | ⟨hh, h, _⟩ | h⟩ := hC a h <;> subst h <;> rfl
  · rcases hD a h with ⟨b, t, e2, hh, rfl, hsome⟩ | ⟨u, rfl, _⟩
    · by_cases he : e2 = e
      · subst he
        rw [hnone] at hsome
        cases hsome
      · simp [isBindEventFor, he]
    · rfl

/-- Witness for C8's theorem: mounting with `qB`, which supplies no `onData`
handler. -/
theorem c8_witness :
    qB.handlers EvName.onData = none ∧
    ∃ A, (xtermCommit envOk initState qB).trace = initState.trace ++ A ∧
      ∀ a ∈ A, isBindEventFor EvName.onData a = false :=
  ⟨rfl, c8_no_handler_no_binding envOk initState qB EvName.onData rfl⟩

/-- C9 (confirmed): while the adapter is mounted and the options identity is
unchanged, the commit is entirely independent of the `customKeyEventHandler`
prop — two renders differing only in that prop produce identical states — and
no `attachCustomKeyEventHandler` call is made: the handler attached at
construction stays in force until an options change rebuilds the instance. -/
theorem c9_customKeyEventHandler_change_inert (env : Nat → Bool) (s : AdapterState)
    (p q : Props) (hmr : s.mainDeps = some p.options)
    (ho : q.options = p.options) (hha : q.handlers = p.handlers)
    (hi : q.onInit = p.onInit) :
    xtermCommit env s p = xtermCommit env s q ∧
    ∃ A, (xtermCommit env s p).trace = s.trace ++ A ∧
      ∀ t hh, XAct.attachCustomKE t hh ∉ A := by
  constructor
  · have hfc : (fun (t : AdapterState) (x : EvName) => useBindCleanup t p x) =
        (fun (t : AdapterState) (x : EvName) => useBindCleanup t q x) := by
      funext t x
      unfold useBindCleanup
      rw [hha]
    have hfb : (fun (t : AdapterState) (x : EvName) => useBindBody t p x) =
        (fun (t : AdapterState) (x : EvName) => useBindBody t q x) := by
      funext t x
      unfold useBindBody
      rw [hha]
    have hib : ∀ s2 n, xtermInitBody s2 p n = xtermInitBody s2 q n := by
      intro s2 n
      unfold xtermInitBody
      rw [hi]
    have hmrq : s.mainDeps = some q.options := by rw [ho]; exact hmr
    unfold xtermCommit
    rw [if_pos hmr, if_pos hmrq]
    unfold useBindBodies useBindCleanups
    rw [hfc, hfb, hib]
  · obtain ⟨A, B, htr, hA, hB⟩ := commit_trace_norun env s p hmr
    refine ⟨A ++ B, by rw [htr, List.append_assoc], ?_⟩
    intro t hh hmem
    rcases List.mem_append.mp hmem with h | h
    · obtain ⟨b, hb⟩ := eq_of_isDisposeBindingA (hA _ h)
      cases hb
    · rcases eq_of_isBindOrInitA (hB _ h) with ⟨b, t2, e, g, hb⟩ | ⟨b, hb⟩ | ⟨u, hb⟩ <;>
        cases hb

set_option maxRecDepth 8000 in
/-- Witness for C9's theorem: a mounted adapter re-rendered with `pK`, which
differs from `qB` only by supplying a custom key event handler. -/
theorem c9_witness :
    (runMounted envOk [qB]).mainDeps = some qB.options ∧
    (xtermCommit envOk (runMounted envOk [qB]) qB =
      xtermCommit envOk (runMounted envOk [qB]) pK ∧
     ∃ A, (xtermCommit envOk (runMounted envOk [qB]) qB).trace =
        (runMounted envOk [qB]).trace ++ A ∧
      ∀ t hh, XAct.attachCustomKE t hh ∉ A) :=
  ⟨by decide,
   c9_customKeyEventHandler_change_inert envOk (runMounted envOk [qB]) qB pK
     (by decide) rfl rfl rfl⟩

/-- C4 (confirmed): when `Terminal.dispose` throws during teardown (here at
unmount), the adapter catches the error and logs it (the `logError` action
right after the throwing `disposeTerm`), never re-raising: the unmount
completes — the remaining binding cleanups still run and the internal
instance reference is cleared. -/
theorem c4_dispose_error_caught_and_logged (env : Nat → Bool) (s : AdapterState)
    (t : Nat) (d : Bool) (hcu : s.mainCu = some (t, d)) (hthrow : env t = true) :
    (xtermUnmount env s).xtermRef = none ∧ (xtermUnmount env s).mainCu = none ∧
    ∃ l, (xtermUnmount env s).trace =
        s.trace ++ ((if d then [XAct.onDisposeCall t] else []) ++
          [XAct.disposeTerm t true, XAct.logError t]) ++ l ∧
      ∀ a ∈ l, isDisposeBindingA a = true := by
  have hacts : mainCleanupActs env t d =
      (if d then [XAct.onDisposeCall t] else []) ++
        [XAct.disposeTerm t true, XAct.logError t] := by
    unfold mainCleanupActs
    rw [hthrow]
    simp
  have hmc := mc_run env s t d hcu
  unfold xtermUnmount
  refine ⟨?_, ?_, ?_⟩
  · rw [umfold_xtermRef, hmc]
  · rw [umfold_mainCu, hmc]
  · obtain ⟨l, hl, hlP⟩ := umfold_trace (xtermMainCleanup env s) evOrder
    refine ⟨l, ?_, hlP⟩
    rw [hl, hmc]
    show s.trace ++ mainCleanupActs env t d ++ l = _
    rw [hacts]

set_option maxRecDepth 8000 in
/-- Witness for C4's theorem: unmounting the `qB` mount in the environment
where every dispose throws. -/
theorem c4_witness :
    (runMounted envBad [qB]).mainCu = some (0, true) ∧ envBad 0 = true ∧
    ((xtermUnmount envBad (runMounted envBad [qB])).xtermRef = none ∧
     (xtermUnmount envBad (runMounted envBad [qB])).mainCu = none ∧
     ∃ l, (xtermUnmount envBad (runMounted envBad [qB])).trace =
        (runMounted envBad [qB]).trace ++ ((if true then [XAct.onDisposeCall 0] else []) ++
          [XAct.disposeTerm 0 true, XAct.logError 0]) ++ l ∧
      ∀ a ∈ l, isDisposeBindingA a = true) :=
  ⟨by decide, rfl,
   c4_dispose_error_caught_and_logged envBad (runMounted envBad [qB]) 0 true
     (by decide) rfl⟩

lemma pairedFrom_append (l2 : List XAct) :
    ∀ (l1 : List XAct) (st : Option Nat), pairedFrom st l1 = true →
      pairedFrom st (l1 ++ l2) = pairedFrom none l2 := by
  intro l1
  induction l1 with
  | nil =>
      intro st h
      cases st with
      | none => rw [List.nil_append]
      | some t => simp [pairedFrom] at h
  | cons a l ih =>
      intro st h
      cases hst : pstep st a with
      | none =>
          rw [show pairedFrom st (a :: l) = false from by simp [pairedFrom, hst]] at h
          cases h
      | some st2 =>
          have h' : pairedFrom st2 l = true := by
            simpa [pairedFrom, hst] using h
          rw [List.cons_append]
          simp only [pairedFrom, hst]
          exact ih st2 h'

lemma pairedFrom_no_dispose :
    ∀ l : List XAct,
      (∀ a ∈ l, isDisposeTermA a = false ∧ isOnDisposeA a = false) →
      pairedFrom none l = true := by
  intro l
  induction l with
  | nil => intro _; rfl
  | cons a l ih =>
      intro h
      obtain ⟨h1, h2⟩ := h a (List.mem_cons_self a l)
      have ht := fun x hx => h x (List.mem_cons_of_mem a hx)
      cases a with
      | onDisposeCall t => exact absurd h2 (by simp [isOnDisposeA])
      | disposeTerm t b => exact absurd h1 (by simp [isDisposeTermA])
      | createTerm t o => simpa [pairedFrom, pstep] using ih ht
      | loadAddon t x => simpa [pairedFrom, pstep] using ih ht
      | attachCustomKE t x => simpa [pairedFrom, pstep] using ih ht
      | openTerm t => simpa [pairedFrom, pstep] using ih ht
      | onInitCall t => simpa [pairedFrom, pstep] using ih ht
      | logError t => simpa [pairedFrom, pstep] using ih ht
      | bindEvent b t e x => simpa [pairedFrom, pstep] using ih ht
      | disposeBinding b => simpa [pairedFrom, pstep] using ih ht

lemma paired_mainCleanupActs (env : Nat → Bool) (t : Nat) :
    pairedFrom none (mainCleanupActs env t true) = true := by
  unfold mainCleanupActs
  cases henv : env t <;> simp [henv, pairedFrom, pstep]

lemma paired_app (l1 l2 : List XAct) (h1 : pairedFrom none l1 = true)
    (h2 : pairedFrom none l2 = true) : pairedFrom none (l1 ++ l2) = true := by
  rw [pairedFrom_append l2 l1 none h1]
  exact h2

lemma nd_of_disposeBinding {a : XAct} (h : isDisposeBindingA a = true) :
    isDisposeTermA a = false ∧ isOnDisposeA a = false := by
  obtain ⟨b, rfl⟩ := eq_of_isDisposeBindingA h
  exact ⟨rfl, rfl⟩

lemma nd_of_bindOrInit {a : XAct} (h : isBindOrInitA a = true) :
    isDisposeTermA a = false ∧ isOnDisposeA a = false := by
  rcases eq_of_isBindOrInitA h with ⟨b, t, e, hh, rfl⟩ | ⟨b, rfl⟩ | ⟨t, rfl⟩ <;>
    exact ⟨rfl, rfl⟩

lemma nd_mainBodyActs (n : Nat) (p : Props) :
    ∀ a ∈ mainBodyActs n p, isDisposeTermA a = false ∧ isOnDisposeA a = false := by
  intro a ha
  rcases mem_mainBodyActs ha with rfl | ⟨x, _, rfl⟩ | ⟨hh, rfl, _⟩ | rfl <;>
    exact ⟨rfl, rfl⟩

lemma commit_divAttached (env : Nat → Bool) (s : AdapterState) (p : Props) :
    (xtermCommit env s p).divAttached = s.divAttached := by
  unfold xtermCommit
  by_cases hmr : s.mainDeps = some p.options
  · rw [if_pos hmr, ib_divAttached, ubbs_divAttached, ubcs_divAttached]
  · rw [if_neg hmr, ib_divAttached, ubbs_divAttached, mb_divAttached,
      ubcs_divAttached, mc_divAttached]

lemma commit_mainCu_norun (env : Nat → Bool) (s : AdapterState) (p : Props)
    (hmr : s.mainDeps = some p.options) :
    (xtermCommit env s p).mainCu = s.mainCu := by
  unfold xtermCommit
  rw [if_pos hmr, ib_mainCu, ubbs_mainCu, ubcs_mainCu]

lemma commit_mainCu_run (env : Nat → Bool) (s : AdapterState) (p : Props)
    (hdiv : s.divAttached = true) (hmr : s.mainDeps ≠ some p.options) :
    ∃ n, (xtermCommit env s p).mainCu = some (n, p.onDispose) := by
  unfold xtermCommit
  rw [if_neg hmr, ib_mainCu, ubbs_mainCu]
  set s2 := useBindCleanups (xtermMainCleanup env s) p with hs2
  have hdiv2 : s2.divAttached = true := by
    rw [hs2, ubcs_divAttached, mc_divAttached]
    exact hdiv
  rw [mb_of_div s2 p hdiv2]
  exact ⟨s2.nextTerm, rfl⟩

lemma paired_mainCuActs (env : Nat → Bool) (s : AdapterState)
    (hflag : ∀ t d2, s.mainCu = some (t, d2) → d2 = true) :
    pairedFrom none (mainCuActs env s.mainCu) = true := by
  cases hcu : s.mainCu with
  | none => rfl
  | some td =>
      obtain ⟨t, d2⟩ := td
      have : d2 = true := hflag t d2 hcu
      subst this
      exact paired_mainCleanupActs env t

/-- One commit preserves the C3 invariant: div attached, paired trace, and
every stored main cleanup captured a callable `onDispose`. -/
lemma c3_commit (env : Nat → Bool) (s : AdapterState) (p : Props)
    (hd : p.onDispose = true) (hdiv : s.divAttached = true)
    (hpair : pairedFrom none s.trace = true)
    (hflag : ∀ t d2, s.mainCu = some (t, d2) → d2 = true) :
    (xtermCommit env s p).divAttached = true ∧
    pairedFrom none (xtermCommit env s p).trace = true ∧
    (∀ t d2, (xtermCommit env s p).mainCu = some (t, d2) → d2 = true) := by
  refine ⟨by rw [commit_divAttached]; exact hdiv, ?_, ?_⟩
  · by_cases hmr : s.mainDeps = some p.options
    · obtain ⟨A, B, htr, hA, hB⟩ := commit_trace_norun env s p hmr
      rw [htr]
      exact paired_app _ _ (paired_app _ _ hpair
        (pairedFrom_no_dispose A (fun a ha => nd_of_disposeBinding (hA a ha))))
        (pairedFrom_no_dispose B (fun a ha => nd_of_bindOrInit (hB a ha)))
    · obtain ⟨A, B, htr, hA, hB⟩ := commit_trace_run env s p hdiv hmr
      rw [htr]
      refine paired_app _ _ (paired_app _ _ (paired_app _ _ (paired_app _ _ hpair
        (paired_mainCuActs env s hflag))
        (pairedFrom_no_dispose A (fun a ha => nd_of_disposeBinding (hA a ha))))
        (nd_mainBodyActs s.nextTerm p |> pairedFrom_no_dispose _)) ?_
      exact pairedFrom_no_dispose B (fun a ha => nd_of_bindOrInit (hB a ha))
  · by_cases hmr : s.mainDeps = some p.options
    · rw [commit_mainCu_norun env s p hmr]
      exact hflag
    · obtain ⟨n, hn⟩ := commit_mainCu_run env s p hdiv hmr
      intro t d2 h
      rw [hn] at h
      obtain ⟨h1, h2⟩ := Prod.mk.injEq .. ▸ Option.some_inj.mp h
      rw [← h2]
      exact hd

/-- C3 (confirmed): over a whole adapter lifecycle in which every render
supplies a callable `onDispose`, the trace satisfies `pairedOnDispose`:
`onDisposeCall` and `disposeTerm` occur only as adjacent pairs on the same
instance — so whenever the adapter unmounts or recreates the instance,
`onDispose` is invoked exactly once per disposal, with the
about-to-be-destroyed instance, strictly before its dispose runs. -/
theorem c3_onDispose_before_every_dispose (env : Nat → Bool) (ps : List Props)
    (hall : ∀ p ∈ ps, p.onDispose = true) :
    pairedOnDispose (runAdapter env ps).trace = true := by
  have hmain : ∀ (ps2 : List Props) (s : AdapterState),
      (∀ p ∈ ps2, p.onDispose = true) →
      s.divAttached = true → pairedFrom none s.trace = true →
      (∀ t d2, s.mainCu = some (t, d2) → d2 = true) →
      (ps2.foldl (xtermCommit env) s).divAttached = true ∧
      pairedFrom none ((ps2.foldl (xtermCommit env) s)).trace = true ∧
      (∀ t d2, (ps2.foldl (xtermCommit env) s).mainCu = some (t, d2) → d2 = true) := by
    intro ps2
    induction ps2 with
    | nil => intro s _ h1 h2 h3; exact ⟨h1, h2, h3⟩
    | cons p ps2 ih =>
        intro s hall2 h1 h2 h3
        rw [List.foldl_cons]
        obtain ⟨g1, g2, g3⟩ := c3_commit env s p
          (hall2 p (List.mem_cons_self p ps2)) h1 h2 h3
        exact ih (xtermCommit env s p)
          (fun q hq => hall2 q (List.mem_cons_of_mem p hq)) g1 g2 g3
  obtain ⟨h1, h2, h3⟩ := hmain ps initState hall rfl rfl (by intro t d2 h; cases h)
  unfold runAdapter xtermUnmount runMounted
  obtain ⟨l, hl, hlP⟩ := umfold_trace (xtermMainCleanup env (ps.foldl (xtermCommit env) initState)) evOrder
  show pairedFrom none _ = true
  rw [hl, mc_trace]
  exact paired_app _ _ (paired_app _ _ h2 (paired_mainCuActs env _ h3))
    (pairedFrom_no_dispose l (fun a ha => nd_of_disposeBinding (hlP a ha)))

set_option maxRecDepth 8000 in
/-- Witness for C3's theorem: a mount, an options-change recreation, and the
final unmount, with `onDispose` supplied on every render. -/
theorem c3_witness :
    (∀ p ∈ [qB, qB2], p.onDispose = true) ∧
    pairedOnDispose (runAdapter envOk [qB, qB2]).trace = true :=
  ⟨by decide, c3_onDispose_before_every_dispose envOk [qB, qB2] (by decide)⟩

/-- Transport of the C10 invariant along a phase that appends no `onInit`
call and either keeps the ref or points it at an already-created instance. -/
lemma inv10_transport (s s' : AdapterState) (A : List XAct)
    (htr : s'.trace = s.trace ++ A)
    (hA : ∀ a ∈ A, ∀ u, a ≠ XAct.onInitCall u)
    (href : ∀ t, s'.xtermRef = some t →
      s.xtermRef = some t ∨ ∃ o, XAct.createTerm t o ∈ s'.trace)
    (h1 : ∀ t, XAct.onInitCall t ∈ s.trace → ∃ o, XAct.createTerm t o ∈ s.trace)
    (h2 : ∀ t, s.xtermRef = some t → ∃ o, XAct.createTerm t o ∈ s.trace) :
    (∀ t, XAct.onInitCall t ∈ s'.trace → ∃ o, XAct.createTerm t o ∈ s'.trace) ∧
    (∀ t, s'.xtermRef = some t → ∃ o, XAct.createTerm t o ∈ s'.trace) := by
  have hmono : ∀ a : XAct, a ∈ s.trace → a ∈ s'.trace := by
    intro a ha
    rw [htr]
    exact List.mem_append_left A ha
  constructor
  · intro t ht
    rw [htr] at ht
    rcases List.mem_append.mp ht with h | h
    · obtain ⟨o, ho⟩ := h1 t h
      exact ⟨o, hmono _ ho⟩
    · exact absurd rfl (hA _ h t)
  · intro t ht
    rcases href t ht with h | h
    · obtain ⟨o, ho⟩ := h2 t h
      exact ⟨o, hmono _ ho⟩
    · exact h

lemma mc_id (env : Nat → Bool) (s : AdapterState) (hcu : s.mainCu = none) :
    xtermMainCleanup env s = s := by
  unfold xtermMainCleanup
  rw [hcu]

lemma createTerm_mem_mainBodyActs (n : Nat) (p : Props) :
    XAct.createTerm n p.options ∈ mainBodyActs n p :=
  List.mem_cons_self _ _

/-- One commit preserves the C10 invariant. -/
lemma c10_commit (env : Nat → Bool) (s : AdapterState) (p : Props)
    (h1 : ∀ t, XAct.onInitCall t ∈ s.trace → ∃ o, XAct.createTerm t o ∈ s.trace)
    (h2 : ∀ t, s.xtermRef = some t → ∃ o, XAct.createTerm t o ∈ s.trace) :
    (∀ t, XAct.onInitCall t ∈ (xtermCommit env s p).trace →
      ∃ o, XAct.createTerm t o ∈ (xtermCommit env s p).trace) ∧
    (∀ t, (xtermCommit env s p).xtermRef = some t →
      ∃ o, XAct.createTerm t o ∈ (xtermCommit env s p).trace) := by
  have hmc : (∀ t, XAct.onInitCall t ∈ (xtermMainCleanup env s).trace →
      ∃ o, XAct.createTerm t o ∈ (xtermMainCleanup env s).trace) ∧
      (∀ t, (xtermMainCleanup env s).xtermRef = some t →
        ∃ o, XAct.createTerm t o ∈ (xtermMainCleanup env s).trace) := by
    refine inv10_transport s _ (mainCuActs env s.mainCu) (mc_trace env s) ?_ ?_ h1 h2
    · intro a ha u
      obtain ⟨t, h | h | h⟩ := mem_mainCuActs ha <;> subst h <;> simp
    · intro t ht
      cases hcu : s.mainCu with
      | none => rw [mc_id env s hcu] at ht; exact Or.inl ht
      | some td =>
          obtain ⟨t2, d2⟩ := td
          rw [mc_run env s t2 d2 hcu] at ht
          cases ht
  have hubcs : ∀ s2 : AdapterState,
      (∀ t, XAct.onInitCall t ∈ s2.trace → ∃ o, XAct.createTerm t o ∈ s2.trace) →
      (∀ t, s2.xtermRef = some t → ∃ o, XAct.createTerm t o ∈ s2.trace) →
      (∀ t, XAct.onInitCall t ∈ (useBindCleanups s2 p).trace →
        ∃ o, XAct.createTerm t o ∈ (useBindCleanups s2 p).trace) ∧
      (∀ t, (useBindCleanups s2 p).xtermRef = some t →
        ∃ o, XAct.createTerm t o ∈ (useBindCleanups s2 p).trace) := by
    intro s2 g1 g2
    obtain ⟨A, hA, hAP⟩ := ubcs_trace s2 p
    refine inv10_transport s2 _ A hA ?_ ?_ g1 g2
    · intro a ha u
      obtain ⟨b, rfl⟩ := eq_of_isDisposeBindingA (hAP a ha)
      simp
    · intro t ht
      rw [ubcs_xtermRef] at ht
      exact Or.inl ht
  have hubbs : ∀ s2 : AdapterState,
      (∀ t, XAct.onInitCall t ∈ s2.trace → ∃ o, XAct.createTerm t o ∈ s2.trace) →
      (∀ t, s2.xtermRef = some t → ∃ o, XAct.createTerm t o ∈ s2.trace) →
      (∀ t, XAct.onInitCall t ∈ (useBindBodies s2 p).trace →
        ∃ o, XAct.createTerm t o ∈ (useBindBodies s2 p).trace) ∧
      (∀ t, (useBindBodies s2 p).xtermRef = some t →
        ∃ o, XAct.createTerm t o ∈ (useBindBodies s2 p).trace) := by
    intro s2 g1 g2
    obtain ⟨A, hA, hAP⟩ := ubbs_trace s2 p
    refine inv10_transport s2 _ A hA ?_ ?_ g1 g2
    · intro a ha u
      obtain ⟨b, t, e, hh, rfl, _⟩ := hAP a ha
      simp
    · intro t ht
      rw [ubbs_xtermRef] at ht
      exact Or.inl ht
  have hmb : ∀ s2 : AdapterState,
      (∀ t, XAct.onInitCall t ∈ s2.trace → ∃ o, XAct.createTerm t o ∈ s2.trace) →
      (∀ t, s2.xtermRef = some t → ∃ o, XAct.createTerm t o ∈ s2.trace) →
      (∀ t, XAct.onInitCall t ∈ (xtermMainBody s2 p).trace →
        ∃ o, XAct.createTerm t o ∈ (xtermMainBody s2 p).trace) ∧
      (∀ t, (xtermMainBody s2 p).xtermRef = some t →
        ∃ o, XAct.createTerm t o ∈ (xtermMainBody s2 p).trace) := by
    intro s2 g1 g2
    by_cases hdiv : s2.divAttached = true
    · have hrec := mb_of_div s2 p hdiv
      refine inv10_transport s2 _ (mainBodyActs s2.nextTerm p) (by rw [hrec]) ?_ ?_ g1 g2
      · intro a ha u
        rcases mem_mainBodyActs ha with rfl | ⟨x, _, rfl⟩ | ⟨hh, rfl, _⟩ | rfl <;> simp
      · intro t ht
        rw [hrec] at ht
        have heq : t = s2.nextTerm := (Option.some_inj.mp ht).symm
        refine Or.inr ⟨p.options, ?_⟩
        rw [hrec, heq]
        show XAct.createTerm s2.nextTerm p.options ∈ s2.trace ++ mainBodyActs s2.nextTerm p
        exact List.mem_append_right _ (createTerm_mem_mainBodyActs s2.nextTerm p)
    · have hrec : xtermMainBody s2 p =
          { s2 with mainDeps := some p.options, mainCu := none } := by
        unfold xtermMainBody
        rw [if_neg hdiv]
      refine inv10_transport s2 _ [] (by rw [hrec]; simp) (by simp) ?_ g1 g2
      intro t ht
      rw [hrec] at ht
      exact Or.inl ht
  have hib : ∀ (s4 : AdapterState) (n : Option Nat),
      (∀ t, XAct.onInitCall t ∈ s4.trace → ∃ o, XAct.createTerm t o ∈ s4.trace) →
      (∀ t, s4.xtermRef = some t → ∃ o, XAct.createTerm t o ∈ s4.trace) →
      (∀ t, XAct.onInitCall t ∈ (xtermInitBody s4 p n).trace →
        ∃ o, XAct.createTerm t o ∈ (xtermInitBody s4 p n).trace) ∧
      (∀ t, (xtermInitBody s4 p n).xtermRef = some t →
        ∃ o, XAct.createTerm t o ∈ (xtermInitBody s4 p n).trace) := by
    intro s4 n g1 g2
    obtain ⟨C, hC, hCP⟩ := ib_trace s4 p n
    have hmono : ∀ a : XAct, a ∈ s4.trace → a ∈ (xtermInitBody s4 p n).trace := by
      intro a ha
      rw [hC]
      exact List.mem_append_left C ha
    constructor
    · intro t ht
      rw [hC] at ht
      rcases List.mem_append.mp ht with h | h
      · obtain ⟨o, ho⟩ := g1 t h
        exact ⟨o, hmono _ ho⟩
      · obtain ⟨u, heq, href, _⟩ := hCP _ h
        have : t = u := by cases heq; rfl
        subst this
        obtain ⟨o, ho⟩ := g2 t href
        exact ⟨o, hmono _ ho⟩
    · intro t ht
      rw [ib_xtermRef] at ht
      obtain ⟨o, ho⟩ := g2 t ht
      exact ⟨o, hmono _ ho⟩
  unfold xtermCommit
  by_cases hmr : s.mainDeps = some p.options
  · rw [if_pos hmr]
    obtain ⟨g1, g2⟩ := hubcs s h1 h2
    obtain ⟨g3, g4⟩ := hubbs _ g1 g2
    exact hib _ s.xtermRef g3 g4
  · rw [if_neg hmr]
    obtain ⟨g1, g2⟩ := hmc
    obtain ⟨g3, g4⟩ := hubcs _ g1 g2
    obtain ⟨g5, g6⟩ := hmb _ g3 g4
    obtain ⟨g7, g8⟩ := hubbs _ g5 g6
    exact hib _ s.xtermRef g7 g8

/-- A commit whose props carry no callable `onInit` adds no `onInit` call. -/
lemma commit_no_new_onInit (env : Nat → Bool) (s : AdapterState) (p : Props)
    (hp : p.onInit = false) :
    ∀ t, XAct.onInitCall t ∈ (xtermCommit env s p).trace →
      XAct.onInitCall t ∈ s.trace := by
  obtain ⟨A, B, C, D, htr, hA, hB, hC, hD⟩ := commit_trace_parts env s p
  intro t ht
  rw [htr] at ht
  rcases List.mem_append.mp ht with h | h
  · rcases List.mem_append.mp h with h | h
    · rcases List.mem_append.mp h with h | h
      · rcases List.mem_append.mp h with h | h
        · exact h
        · obtain ⟨t2, h | h | h⟩ := hA _ h <;> cases h
      · obtain ⟨b, hb⟩ := eq_of_isDisposeBindingA (hB _ h)
        cases hb
    · obtain ⟨n, h | ⟨x, _, h⟩ | ⟨hh, h, _⟩ | h⟩ := hC _ h <;> cases h
  · rcases hD _ h with ⟨b, t2, e, hh, heq, _⟩ | ⟨u, _, hOn⟩
    · cases heq
    · rw [hp] at hOn
      cases hOn

/-- C10 (confirmed): `onInit` is never invoked with a null/absent instance —
every `onInit` call in a full lifecycle trace refers to an instance that was
actually constructed — and `onInit` is invoked only when the prop is a
callable function: if no render supplies one, no `onInit` call ever occurs. -/
theorem c10_onInit_only_with_live_instance (env : Nat → Bool) (ps : List Props) :
    (∀ t, XAct.onInitCall t ∈ (runAdapter env ps).trace →
      ∃ o, XAct.createTerm t o ∈ (runAdapter env ps).trace) ∧
    ((∀ p ∈ ps, p.onInit = false) →
      ∀ t, XAct.onInitCall t ∉ (runAdapter env ps).trace) := by
  constructor
  · have hmain : ∀ (ps2 : List Props) (s : AdapterState),
        (∀ t, XAct.onInitCall t ∈ s.trace → ∃ o, XAct.createTerm t o ∈ s.trace) →
        (∀ t, s.xtermRef = some t → ∃ o, XAct.createTerm t o ∈ s.trace) →
        (∀ t, XAct.onInitCall t ∈ (ps2.foldl (xtermCommit env) s).trace →
          ∃ o, XAct.createTerm t o ∈ (ps2.foldl (xtermCommit env) s).trace) ∧
        (∀ t, (ps2.foldl (xtermCommit env) s).xtermRef = some t →
          ∃ o, XAct.createTerm t o ∈ (ps2.foldl (xtermCommit env) s).trace) := by
      intro ps2
      induction ps2 with
      | nil => intro s g1 g2; exact ⟨g1, g2⟩
      | cons p ps2 ih =>
          intro s g1 g2
          rw [List.foldl_cons]
          obtain ⟨g3, g4⟩ := c10_commit env s p g1 g2
          exact ih _ g3 g4
    obtain ⟨g1, g2⟩ := hmain ps initState
      (by intro t ht; cases ht) (by intro t ht; cases ht)
    set sm := ps.foldl (xtermCommit env) initState with hsm
    have hmcInv := inv10_transport sm (xtermMainCleanup env sm)
      (mainCuActs env sm.mainCu) (mc_trace env sm)
      (by intro a ha u
          obtain ⟨t, h | h | h⟩ := mem_mainCuActs ha <;> subst h <;> simp)
      (by intro t ht
          cases hcu : sm.mainCu with
          | none => rw [mc_id env sm hcu] at ht; exact Or.inl ht
          | some td =>
              obtain ⟨t2, d2⟩ := td
              rw [mc_run env sm t2 d2 hcu] at ht
              cases ht)
      g1 g2
    obtain ⟨g3, g4⟩ := hmcInv
    obtain ⟨l, hl, hlP⟩ := umfold_trace (xtermMainCleanup env sm) evOrder
    have hres := inv10_transport (xtermMainCleanup env sm)
      (evOrder.foldl unmountBindCu (xtermMainCleanup env sm)) l hl
      (by intro a ha u
          obtain ⟨b, rfl⟩ := eq_of_isDisposeBindingA (hlP a ha)
          simp)
      (by intro t ht
          rw [umfold_xtermRef] at ht
          exact Or.inl ht)
      g3 g4
    exact hres.1
  · intro hall
    have hmain : ∀ (ps2 : List Props) (s : AdapterState),
        (∀ p ∈ ps2, p.onInit = false) →
        (∀ t, XAct.onInitCall t ∉ s.trace) →
        ∀ t, XAct.onInitCall t ∉ (ps2.foldl (xtermCommit env) s).trace := by
      intro ps2
      induction ps2 with
      | nil => intro s _ h; exact h
      | cons p ps2 ih =>
          intro s hall2 h
          rw [List.foldl_cons]
          refine ih _ (fun q hq => hall2 q (List.mem_cons_of_mem p hq)) ?_
          intro t ht
          exact h t (commit_no_new_onInit env s p
            (hall2 p (List.mem_cons_self p ps2)) t ht)
    have hm := hmain ps initState hall (by intro t ht; cases ht)
    set sm := ps.foldl (xtermCommit env) initState with hsm
    intro t ht
    obtain ⟨l, hl, hlP⟩ := umfold_trace (xtermMainCleanup env sm) evOrder
    have : (runAdapter env ps).trace =
        sm.trace ++ mainCuActs env sm.mainCu ++ l := by
      show (evOrder.foldl unmountBindCu (xtermMainCleanup env sm)).trace = _
      rw [hl, mc_trace]
    rw [this] at ht
    rcases List.mem_append.mp ht with h | h
    · rcases List.mem_append.mp h with h | h
      · exact hm t h
      · obtain ⟨t2, h2 | h2 | h2⟩ := mem_mainCuActs h <;> cases h2
    · obtain ⟨b, hb⟩ := eq_of_isDisposeBindingA (hlP _ h)
      cases hb

set_option maxRecDepth 8000 in
/-- Witness for C10's theorem: a lifecycle with `onInit` (instance 0 was
really constructed), and one without `onInit` (no call at all). -/
theorem c10_witness :
    (XAct.onInitCall 0 ∈ (runAdapter envOk [qB]).trace ∧
      ∃ o, XAct.createTerm 0 o ∈ (runAdapter envOk [qB]).trace) ∧
    ((∀ p ∈ [pA], p.onInit = false) ∧
      XAct.onInitCall 0 ∉ (runAdapter envOk [pA]).trace) :=
  ⟨⟨by decide, (c10_onInit_only_with_live_instance envOk [qB]).1 0 (by decide)⟩,
   ⟨by decide, (c10_onInit_only_with_live_instance envOk [pA]).2 (by decide) 0⟩⟩

/-- Transport of `BindingsAccounted` along a phase that appends no
`bindEvent` and leaves the cleanup slots unchanged. -/
lemma ba_transport (s s' : AdapterState) (A : List XAct)
    (htr : s'.trace = s.trace ++ A)
    (hA : ∀ a ∈ A, ∀ b t e hh, a ≠ XAct.bindEvent b t e hh)
    (hcu : s'.bindCu = s.bindCu)
    (h : BindingsAccounted s) : BindingsAccounted s' := by
  intro b hb
  obtain ⟨t, e, hh, hmem⟩ := hb
  rw [htr] at hmem
  rcases List.mem_append.mp hmem with hm | hm
  · rcases h b ⟨t, e, hh, hm⟩ with hd | ⟨e2, he2⟩
    · exact Or.inl (by rw [htr]; exact List.mem_append_left A hd)
    · exact Or.inr ⟨e2, by rw [hcu]; exact he2⟩
  · exact absurd rfl (hA _ hm b t e hh)

lemma ba_ubc (s : AdapterState) (p : Props) (e : EvName)
    (h : BindingsAccounted s) : BindingsAccounted (useBindCleanup s p e) := by
  unfold useBindCleanup
  split
  · exact h
  · split
    · exact h
    · rename_i b0 hb0
      intro b hb
      obtain ⟨t, e3, hh, hmem⟩ := hb
      have hmem' : XAct.bindEvent b t e3 hh ∈ s.trace := by
        rcases List.mem_append.mp hmem with hm | hm
        · exact hm
        · rcases List.mem_singleton.mp hm
      rcases h b ⟨t, e3, hh, hmem'⟩ with hd | ⟨e2, he2⟩
      · exact Or.inl (List.mem_append_left _ hd)
      · by_cases hee : e2 = e
        · subst hee
          rw [hb0] at he2
          have : b0 = b := Option.some_inj.mp he2
          subst this
          exact Or.inl (List.mem_append_right _ (List.mem_singleton.mpr rfl))
        · refine Or.inr ⟨e2, ?_⟩
          show (if e2 = e then none else s.bindCu e2) = some b
          rw [if_neg hee]
          exact he2

lemma ba_ubb (s : AdapterState) (p : Props) (e : EvName)
    (hq : CleanupsCleared p s) (h : BindingsAccounted s) :
    BindingsAccounted (useBindBody s p e) ∧ CleanupsCleared p (useBindBody s p e) := by
  unfold useBindBody
  split
  · exact ⟨h, hq⟩
  · rename_i hd
    split
    · rename_i t g href hg
      constructor
      · intro b hb
        obtain ⟨t2, e3, hh2, hmem⟩ := hb
        rcases List.mem_append.mp hmem with hm | hm
        · rcases h b ⟨t2, e3, hh2, hm⟩ with hdis | ⟨e2, he2⟩
          · exact Or.inl (List.mem_append_left _ hdis)
          · by_cases hee : e2 = e
            · subst hee
              rw [hq e2 hd] at he2
              cases he2
            · refine Or.inr ⟨e2, ?_⟩
              show (if e2 = e then some s.nextBind else s.bindCu e2) = some b
              rw [if_neg hee]
              exact he2
        · have : b = s.nextBind := by
            rcases List.mem_singleton.mp hm
            rfl
          subst this
          refine Or.inr ⟨e, ?_⟩
          show (if e = e then some s.nextBind else s.bindCu e) = some s.nextBind
          rw [if_pos rfl]
      · intro e2 hne2
        by_cases hee : e2 = e
        · subst hee
          have : (if e2 = e2 then some (p.handlers e2) else s.bindDeps e2)
              = some (p.handlers e2) := by rw [if_pos rfl]
          exact absurd this hne2
        · have hne2' : s.bindDeps e2 ≠ some (p.handlers e2) := by
            intro hcon
            apply hne2
            show (if e2 = e then some (p.handlers e) else s.bindDeps e2)
              = some (p.handlers e2)
            rw [if_neg hee]
            exact hcon
          show (if e2 = e then some s.nextBind else s.bindCu e2) = none
          rw [if_neg hee]
          exact hq e2 hne2'
    · constructor
      · intro b hb
        obtain ⟨t2, e3, hh2, hmem⟩ := hb
        rcases h b ⟨t2, e3, hh2, hmem⟩ with hdis | ⟨e2, he2⟩
        · exact Or.inl hdis
        · by_cases hee : e2 = e
          · subst hee
            rw [hq e2 hd] at he2
            cases he2
          · refine Or.inr ⟨e2, ?_⟩
            show (if e2 = e then none else s.bindCu e2) = some b
            rw [if_neg hee]
            exact he2
      · intro e2 hne2
        by_cases hee : e2 = e
        · subst hee
          show (if e2 = e2 then none else s.bindCu e2) = none
          rw [if_pos rfl]
        · have hne2' : s.bindDeps e2 ≠ some (p.handlers e2) := by
            intro hcon
            apply hne2
            show (if e2 = e then some (p.handlers e) else s.bindDeps e2)
              = some (p.handlers e2)
            rw [if_neg hee]
            exact hcon
          show (if e2 = e then none else s.bindCu e2) = none
          rw [if_neg hee]
          exact hq e2 hne2'

lemma ba_umb (s : AdapterState) (e : EvName)
    (h : BindingsAccounted s) : BindingsAccounted (unmountBindCu s e) := by
  unfold unmountBindCu
  split
  · exact h
  · rename_i b0 hb0
    intro b hb
    obtain ⟨t, e3, hh, hmem⟩ := hb
    have hmem' : XAct.bindEvent b t e3 hh ∈ s.trace := by
      rcases List.mem_append.mp hmem with hm | hm
      · exact hm
      · rcases List.mem_singleton.mp hm
    rcases h b ⟨t, e3, hh, hmem'⟩ with hd | ⟨e2, he2⟩
    · exact Or.inl (List.mem_append_left _ hd)
    · by_cases hee : e2 = e
      · subst hee
        rw [hb0] at he2
        have : b0 = b := Option.some_inj.mp he2
        subst this
        exact Or.inl (List.mem_append_right _ (List.mem_singleton.mpr rfl))
      · refine Or.inr ⟨e2, ?_⟩
        show (if e2 = e then none else s.bindCu e2) = some b
        rw [if_neg hee]
        exact he2

lemma mb_trace2 (s : AdapterState) (p : Props) :
    ∃ A, (xtermMainBody s p).trace = s.trace ++ A ∧
      ∀ a ∈ A, ∀ b t e hh, a ≠ XAct.bindEvent b t e hh := by
  by_cases hdiv : s.divAttached = true
  · refine ⟨mainBodyActs s.nextTerm p, by rw [mb_of_div s p hdiv], ?_⟩
    intro a ha b t e hh
    rcases mem_mainBodyActs ha with rfl | ⟨x, _, rfl⟩ | ⟨g, rfl, _⟩ | rfl <;> simp
  · refine ⟨[], ?_, by simp⟩
    unfold xtermMainBody
    rw [if_neg hdiv]
    simp

/-- One commit preserves `BindingsAccounted`. -/
lemma ba_commit (env : Nat → Bool) (s : AdapterState) (p : Props)
    (h : BindingsAccounted s) : BindingsAccounted (xtermCommit env s p) := by
  have hq2 : ∀ s2 : AdapterState, CleanupsCleared p (useBindCleanups s2 p) := by
    intro s2 e hne
    rw [ubcs_bindDeps] at hne
    exact ubcs_cleared s2 p e hne
  have hba_ubcs : ∀ s2, BindingsAccounted s2 →
      BindingsAccounted (useBindCleanups s2 p) := by
    intro s2 h2
    exact foldl_inv BindingsAccounted _ (fun s3 e h3 => ba_ubc s3 p e h3) evOrder s2 h2
  have hba_ubbs : ∀ s2, BindingsAccounted s2 → CleanupsCleared p s2 →
      BindingsAccounted (useBindBodies s2 p) := by
    intro s2 h2 hq
    have := foldl_inv (fun x => BindingsAccounted x ∧ CleanupsCleared p x) _
      (fun s3 e h3 => ba_ubb s3 p e h3.2 h3.1) evOrder s2 ⟨h2, hq⟩
    exact this.1
  have hib : ∀ (s4 : AdapterState) (n : Option Nat), BindingsAccounted s4 →
      BindingsAccounted (xtermInitBody s4 p n) := by
    intro s4 n h4
    obtain ⟨C, hC, hCP⟩ := ib_trace s4 p n
    refine ba_transport s4 _ C hC ?_ (ib_bindCu s4 p n) h4
    intro a ha b t e hh
    obtain ⟨u, rfl, _⟩ := hCP a ha
    simp
  unfold xtermCommit
  by_cases hmr : s.mainDeps = some p.options
  · rw [if_pos hmr]
    exact hib _ _ (hba_ubbs _ (hba_ubcs s h) (hq2 s))
  · rw [if_neg hmr]
    have h1 : BindingsAccounted (xtermMainCleanup env s) := by
      refine ba_transport s _ (mainCuActs env s.mainCu) (mc_trace env s) ?_
        (mc_bindCu env s) h
      intro a ha b t e hh
      obtain ⟨t2, hx | hx | hx⟩ := mem_mainCuActs ha <;> subst hx <;> simp
    have h2 := hba_ubcs _ h1
    have hq := hq2 (xtermMainCleanup env s)
    set s2 := useBindCleanups (xtermMainCleanup env s) p with hs2
    have h3 : BindingsAccounted (xtermMainBody s2 p) := by
      obtain ⟨A, hA, hAP⟩ := mb_trace2 s2 p
      exact ba_transport s2 _ A hA hAP (mb_bindCu s2 p) h2
    have hq3 : CleanupsCleared p (xtermMainBody s2 p) := by
      intro e hne
      rw [mb_bindDeps] at hne
      rw [mb_bindCu]
      exact hq e hne
    exact hib _ _ (hba_ubbs _ h3 hq3)

set_option maxRecDepth 8000 in
/-- C1 counterexample: mount with an `onData` handler, then change the
options identity.  The old instance 0 is disposed, but the `EventBinding` 0
it produced is still retained live in the `useBind` cleanup slot (its
dependency `[handler]` did not change, so the effect did not re-run) and was
never disposed — the adapter retains a binding referencing an
already-disposed instance, falsifying the claimed invariant. -/
theorem c1_counterexample_binding_outlives_instance :
    (runMounted envOk [pA, pA2]).bindCu EvName.onData = some 0 ∧
    XAct.bindEvent 0 0 EvName.onData 5 ∈ (runMounted envOk [pA, pA2]).trace ∧
    XAct.disposeTerm 0 false ∈ (runMounted envOk [pA, pA2]).trace ∧
    XAct.disposeBinding 0 ∉ (runMounted envOk [pA, pA2]).trace := by
  decide

/-- C1 (corrected): what does hold is that every `EventBinding` ever created
is disposed by the end of the lifecycle: after unmount, every `bindEvent` in
the trace has a matching `disposeBinding`.  (Not before its instance's
disposal: on unmount the main cleanup disposes the instance first, and across
an options change the old bindings survive until their handler changes or
unmount — see the counterexample.) -/
theorem c1_amended_every_binding_disposed_by_unmount (env : Nat → Bool)
    (ps : List Props) (b t : Nat) (e : EvName) (hh : Nat)
    (hmem : XAct.bindEvent b t e hh ∈ (runAdapter env ps).trace) :
    XAct.disposeBinding b ∈ (runAdapter env ps).trace := by
  have hinit : BindingsAccounted initState := by
    intro b2 hb2
    obtain ⟨_, _, _, hm⟩ := hb2
    cases hm
  have hfold : ∀ (l : List Props) (s : AdapterState), BindingsAccounted s →
      BindingsAccounted (l.foldl (xtermCommit env) s) := by
    intro l
    induction l with
    | nil => exact fun s h => h
    | cons p l ih =>
        intro s h
        rw [List.foldl_cons]
        exact ih _ (ba_commit env s p h)
  have hmounted : BindingsAccounted (runMounted env ps) := hfold ps initState hinit
  have hmc : BindingsAccounted (xtermMainCleanup env (runMounted env ps)) := by
    refine ba_transport _ _ (mainCuActs env (runMounted env ps).mainCu)
      (mc_trace env _) ?_ (mc_bindCu env _) hmounted
    intro a ha b2 t2 e2 hh2
    obtain ⟨t3, hx | hx | hx⟩ := mem_mainCuActs ha <;> subst hx <;> simp
  have hfin : BindingsAccounted (runAdapter env ps) := by
    show BindingsAccounted
      (evOrder.foldl unmountBindCu (xtermMainCleanup env (runMounted env ps)))
    exact foldl_inv BindingsAccounted unmountBindCu
      (fun s2 e2 h2 => ba_umb s2 e2 h2) evOrder _ hmc
  rcases hfin b ⟨t, e, hh, hmem⟩ with hd | ⟨e2, he2⟩
  · exact hd
  · have hcl : (runAdapter env ps).bindCu e2 = none := by
      show (evOrder.foldl unmountBindCu (xtermMainCleanup env (runMounted env ps))).bindCu e2
        = none
      exact umfold_cleared _ e2
    rw [hcl] at he2
    cases he2

set_option maxRecDepth 8000 in
/-- Witness for C1's amended theorem: the binding created at mount is indeed
disposed by the end of an unmounted lifecycle. -/
theorem c1_witness :
    XAct.bindEvent 0 0 EvName.onData 5 ∈ (runAdapter envOk [pA]).trace ∧
    XAct.disposeBinding 0 ∈ (runAdapter envOk [pA]).trace :=
  ⟨by decide,
   c1_amended_every_binding_disposed_by_unmount envOk [pA] 0 0 EvName.onData 5
     (by decide)⟩
